import Mathlib

/-!
# LevelDBCacheBin: key codec, expiration and eviction

A shallow embedding of `src/osgEarthDrivers/cache_leveldb/LevelDBCacheBin.cpp`.

* `std::string` is a list of bytes, compared as `std::string::operator<` and
  leveldb's bytewise comparator compare them (unsigned, lexicographic).
* `leveldb::DB` is a key-sorted list of entries; `Get`, `WriteBatch`, and the
  iterator (`Seek`, `Valid`, `Next`) are the functions of section *Store*.
  Whether a committed batch is accepted, and whether the iterator reports an
  error, are answers of the store and are arguments of the operations.
* `Config`, `DateTime`, the `osgb` object codec and the usage `Tracker` are
  declared outside this file of the repository: their operations are the fields
  of `Env`, and the general theorems hold for whatever they compute; section
  *A sample instantiation* fixes small ones to run the code on concrete stores.
* Every method of `LevelDBCacheBin` is a function from the state before the
  call to its result and the state after it.
-/

namespace LevelDBCache

/-! ## Strings -/

abbrev Byte := Fin 256

abbrev Str := List Byte

/-- Bytewise `a < b` of two strings: `std::string::operator<`. -/
def strLt : Str → Str → Bool
  | [], [] => false
  | [], _ :: _ => true
  | _ :: _, [] => false
  | a :: as, b :: bs => if a < b then true else if b < a then false else strLt as bs

/-! ## Store -/

/-- The entries of a `leveldb::DB`, in ascending key order. -/
abbrev Store := List (Str × Str)

/-- One element of a `leveldb::WriteBatch`. -/
inductive Op where
  | put (key value : Str)
  | delete (key : Str)
  deriving DecidableEq, Repr

/-- The value that `DB::Get` finds under `k`; `none` is a status that is not ok. -/
def Store.get : Store → Str → Option Str
  | [], _ => none
  | (k', v) :: rest, k => if k' = k then some v else Store.get rest k

/-- Insert or replace the entry of `k`, keeping the key order. -/
def Store.put : Store → Str → Str → Store
  | [], k, v => [(k, v)]
  | (k', v') :: rest, k, v =>
    if k = k' then (k, v) :: rest
    else if strLt k k' then (k, v) :: (k', v') :: rest
    else (k', v') :: Store.put rest k v

/-- Drop the entry of `k`. -/
def Store.delete (s : Store) (k : Str) : Store :=
  s.filter fun e => decide (e.1 ≠ k)

def Store.applyOp (s : Store) : Op → Store
  | .put k v => s.put k v
  | .delete k => s.delete k

/-- The effect of a committed batch: its elements in the order they were added. -/
def Store.applyBatch (s : Store) (batch : List Op) : Store :=
  batch.foldl Store.applyOp s

/-- The entries an iterator visits after `Seek(start)`: those with key `>= start`. -/
def Store.seek (s : Store) (start : Str) : List (Str × Str) :=
  s.dropWhile fun e => strLt e.1 start

/-- Strictly ascending keys: what the store maintains. -/
def Store.Sorted : Store → Prop
  | [] => True
  | [_] => True
  | a :: b :: rest => strLt a.1 b.1 = true ∧ Store.Sorted (b :: rest)

instance Store.decSorted : (s : Store) → Decidable (Store.Sorted s)
  | [] => isTrue trivial
  | [_] => isTrue trivial
  | a :: b :: rest =>
    match Store.decSorted (b :: rest) with
    | isTrue h =>
      if h2 : strLt a.1 b.1 = true then isTrue ⟨h2, h⟩ else isFalse fun x => h2 x.1
    | isFalse h => isFalse fun x => h x.2

/-! ## Collaborators declared outside the file -/

/-- The counters of the usage tracker (`reads`, `hits`, `writes`) and the rest of
its state, which only its own methods read and write. -/
structure Tracker (Policy : Type) where
  reads : Nat
  hits : Nat
  writes : Nat
  policy : Policy

/-- The operations of the types that `LevelDBCacheBin.cpp` uses and does not define. -/
structure Env (Obj Config DateTime Policy : Type) where
  /-- Source: `dynamic_cast<const osg::Image*>(object)` is not null. -/
  isImage : Obj → Bool
  /-- Source: `dynamic_cast<const osg::Node*>(object)` is not null. -/
  isNode : Obj → Bool
  /-- Source: `_rw->writeImage`: the stream written, `none` when `r.success()` is false. -/
  writeImage : Obj → Option Str
  writeNode : Obj → Option Str
  writeObject : Obj → Option Str
  /-- Source: `ImageReader(_rw, _rwOptions).read`: `none` when `r.success()` is false. -/
  imageReader : Str → Option Obj
  objectReader : Str → Option Obj
  nodeReader : Str → Option Obj
  /-- Source: `r.get<StringObject>()` is not null. -/
  isStringObject : Obj → Bool
  /-- Source: `Config()`. -/
  cfgEmpty : Config
  /-- Source: `Config::set(key, value)`. -/
  cfgSet : Config → Str → Str → Config
  /-- Source: `Config::value(key)`. -/
  cfgValue : Config → Str → Str
  /-- Source: `Config::toJSON(false)`. -/
  toJSON : Config → Str
  /-- Source: `Config::fromJSON(text)`, called on the configuration in the first argument. -/
  fromJSON : Config → Str → Config
  /-- Source: `DateTime::asISO8601()`. -/
  asISO8601 : DateTime → Str
  /-- Source: `DateTime(const std::string&)`. -/
  parseDateTime : Str → DateTime
  /-- Source: `DateTime::asTimeStamp()`, a `time_t`. -/
  asTimeStamp : DateTime → Int
  hasSizeLimit : Tracker Policy → Bool
  isOverLimit : Tracker Policy → Bool
  /-- Source: `Tracker::isTimeToPurge()`: its answer and the tracker's state after it. -/
  isTimeToPurge : Tracker Policy → Bool × Policy
  /-- Source: `Tracker::numToPurge()`, converted to `unsigned` by the caller. -/
  numToPurge : Tracker Policy → Nat
  isTimeToCheckSize : Tracker Policy → Bool × Policy
  /-- Source: `Tracker::calcSize()`: the tracker's state after it has measured the store. -/
  calcSize : Tracker Policy → Option Store → Policy
  /-- Source: `DB::GetApproximateSizes` for one range `[begin, end)`, a `uint64_t`. -/
  approximateSize : Store → Str → Str → Nat
  /-- Source: `LEVELDB_CACHE_VERSION`, as `Config::set` stores it. -/
  cacheVersion : Str

/-! ## State -/

/-- A cache bin: `getID()` and `getMinValidTime()`. -/
structure CacheBin where
  id : Str
  minValidTime : Int
  deriving DecidableEq, Repr

/-- What a call is recorded as having asked of its collaborators. -/
inductive Event where
  | postWrite
  | purgeOldest (maxnum : Nat)
  | calcSize
  | compactRange
  deriving DecidableEq, Repr

/-- The state a bin works on: `_db` (`none` is the null pointer), `_tracker`, and
the record of the calls made so far (most recent last). -/
structure State (Policy : Type) where
  db : Option Store
  tracker : Tracker Policy
  trace : List Event

/-- The answers of the store during one `purgeOldest`: `it->status().ok()` at the
entry visited with `count` entries behind it, and the status of the batch. -/
structure Resp where
  iterOk : Nat → Bool
  commitOk : Bool

inductive ReadResult (Obj Config : Type) where
  | notFound
  | expired
  | readerError
  | ok (object : Obj) (metadata : Config)
  deriving DecidableEq, Repr

inductive RecordStatus where
  | notFound
  | ok
  | expired
  deriving DecidableEq, Repr

/-! ## Key codec -/

/-- Source: `SEP`, the string `"!"`. -/
def SEP : Str := [33]

/-- Source: `TIME_FIELD`, the string `"leveldb.time"`. -/
def TIME_FIELD : Str := [108, 101, 118, 101, 108, 100, 98, 46, 116, 105, 109, 101]

/-- The string `"leveldb.cache_version"`. -/
def CACHE_VERSION_FIELD : Str :=
  [108, 101, 118, 101, 108, 100, 98, 46, 99, 97, 99, 104, 101, 95, 118, 101, 114, 115, 105, 111, 110]

def binKey (bin : CacheBin) : Str := [98] ++ SEP ++ bin.id

def dataKey (bin : CacheBin) (key : Str) : Str := [100] ++ SEP ++ bin.id ++ SEP ++ key

def dataBegin (bin : CacheBin) : Str := [100] ++ SEP ++ bin.id ++ SEP

def dataEnd (bin : CacheBin) : Str := [100] ++ SEP ++ bin.id ++ SEP ++ [255]

def metaKey (bin : CacheBin) (key : Str) : Str := [109] ++ SEP ++ bin.id ++ SEP ++ key

def metaBegin (bin : CacheBin) : Str := [109] ++ SEP ++ bin.id ++ SEP

def metaEnd (bin : CacheBin) : Str := [109] ++ SEP ++ bin.id ++ SEP ++ [255]

section Ops

variable {Obj Config DateTime Policy : Type}

def timeKey (E : Env Obj Config DateTime Policy) (bin : CacheBin) (t : DateTime) (key : Str) : Str :=
  [116] ++ SEP ++ E.asISO8601 t ++ SEP ++ bin.id ++ SEP ++ key

def timeBegin (bin : CacheBin) : Str := [116] ++ SEP ++ bin.id ++ SEP

def timeEnd (bin : CacheBin) : Str := [116] ++ SEP ++ bin.id ++ SEP ++ [255]

def timeBeginGlobal : Str := [116] ++ SEP

def timeEndGlobal : Str := [116] ++ SEP ++ [255]

/-! ## Metadata codec -/

def encodeMeta (E : Env Obj Config DateTime Policy) (cfg : Config) : Str :=
  E.toJSON cfg

/-- The stream copy of `decodeMeta` hands every byte of `input` to `fromJSON`. -/
def decodeMeta (E : Env Obj Config DateTime Policy) (input : Str) (cfg : Config) : Config :=
  E.fromJSON cfg input

/-! ## Operations of a bin -/

/-- The test `_db != 0L`; the operations below branch on `s.db` itself. -/
def binValidForReading (s : State Policy) : Bool := s.db.isSome

def binValidForWriting (s : State Policy) : Bool := s.db.isSome

/-- The time stamp of a stored record: `DateTime t(metadata.value(TIME_FIELD))`. -/
def recordTime (E : Env Obj Config DateTime Policy) (metadata : Config) : DateTime :=
  E.parseDateTime (E.cfgValue metadata TIME_FIELD)

/-- Lines 226-247 of `read`: fetch and decode the data record. -/
def readData (bin : CacheBin) (s : State Policy) (db : Store) (key : Str)
    (reader : Str → Option Obj) (metadata : Config) : ReadResult Obj Config × State Policy :=
  match db.get (dataKey bin key) with
  | none => (.notFound, s)
  | some datavalue =>
    match reader datavalue with
    | none => (.readerError, s)
    | some obj => (.ok obj metadata, { s with tracker := { s.tracker with hits := s.tracker.hits + 1 } })

def read (E : Env Obj Config DateTime Policy) (bin : CacheBin) (s : State Policy) (key : Str)
    (minTime : Int) (reader : Str → Option Obj) : ReadResult Obj Config × State Policy :=
  match s.db with
  | none => (.notFound, s)
  | some db =>
    let s1 := { s with tracker := { s.tracker with reads := s.tracker.reads + 1 } }
    match db.get (metaKey bin key) with
    | some metavalue =>
      let metadata := decodeMeta E metavalue E.cfgEmpty
      let minValidTime := max minTime bin.minValidTime
      if 0 < minValidTime ∧ E.asTimeStamp (recordTime E metadata) < minValidTime then
        (.expired, s1)
      else readData bin s1 db key reader metadata
    | none => readData bin s1 db key reader E.cfgEmpty

def readImage (E : Env Obj Config DateTime Policy) (bin : CacheBin) (s : State Policy) (key : Str)
    (minTime : Int) : ReadResult Obj Config × State Policy :=
  read E bin s key minTime E.imageReader

def readObject (E : Env Obj Config DateTime Policy) (bin : CacheBin) (s : State Policy) (key : Str)
    (minTime : Int) : ReadResult Obj Config × State Policy :=
  read E bin s key minTime E.objectReader

def readNode (E : Env Obj Config DateTime Policy) (bin : CacheBin) (s : State Policy) (key : Str)
    (minTime : Int) : ReadResult Obj Config × State Policy :=
  read E bin s key minTime E.nodeReader

/-- The result `ReadResult()` is the one with code `RESULT_NOT_FOUND`. -/
def readString (E : Env Obj Config DateTime Policy) (bin : CacheBin) (s : State Policy) (key : Str)
    (minTime : Int) : ReadResult Obj Config × State Policy :=
  match readObject E bin s key minTime with
  | (.ok obj metadata, s1) =>
    if E.isStringObject obj then (.ok obj metadata, s1) else (.notFound, s1)
  | r => r

/-- The loop of `purgeOldest`: `entries` is what the iterator has ahead of it,
`count` the entries visited so far; returns the batch built. -/
def purgeOldestLoop (bin : CacheBin) (limit : Str) (maxnum : Nat) (iterOk : Nat → Bool) :
    List (Str × Str) → Nat → List Op → List Op
  | [], _, batch => batch
  | (k, v) :: rest, count, batch =>
    if count < maxnum ∧ strLt k limit = true then
      if iterOk count then
        purgeOldestLoop bin limit maxnum iterOk rest (count + 1)
          (batch ++ [.delete (dataKey bin v), .delete (metaKey bin v), .delete k])
      else batch
    else batch

def purgeOldest (bin : CacheBin) (s : State Policy) (r : Resp) (maxnum : Nat) :
    Bool × State Policy :=
  match s.db with
  | none => (false, s)
  | some db =>
    let batch := purgeOldestLoop bin timeEndGlobal maxnum r.iterOk (db.seek timeBeginGlobal) 0 []
    if r.commitOk then (true, { s with db := some (db.applyBatch batch) })
    else (false, s)

def postWrite (E : Env Obj Config DateTime Policy) (bin : CacheBin) (s : State Policy)
    (r : Resp) : State Policy :=
  let s0 := { s with trace := s.trace ++ [.postWrite] }
  if E.hasSizeLimit s0.tracker then
    if E.isOverLimit s0.tracker then
      let a := E.isTimeToPurge s0.tracker
      let s1 := { s0 with tracker := { s0.tracker with policy := a.2 } }
      if a.1 then
        let num := E.numToPurge s1.tracker % 2 ^ 32
        let arg := num * 3 % 2 ^ 32
        (purgeOldest bin { s1 with trace := s1.trace ++ [.purgeOldest arg] } r arg).2
      else s1
    else
      let a := E.isTimeToCheckSize s0.tracker
      let s1 := { s0 with tracker := { s0.tracker with policy := a.2 } }
      if a.1 then
        { s1 with tracker := { s1.tracker with policy := E.calcSize s1.tracker s1.db },
                  trace := s1.trace ++ [.calcSize] }
      else s1
  else s0

/-- The stream the `osgb` writer produces for `object`, by its run-time kind. -/
def encodeObject (E : Env Obj Config DateTime Policy) (object : Obj) : Option Str :=
  if E.isImage object then E.writeImage object
  else if E.isNode object then E.writeNode object
  else E.writeObject object

/-- The batch of `write`: data record, time-index record, metadata record. -/
def writeBatch (E : Env Obj Config DateTime Policy) (bin : CacheBin) (now : DateTime)
    (key data : Str) (cfg : Config) : List Op :=
  [.put (dataKey bin key) data,
   .put (timeKey E bin now key) key,
   .put (metaKey bin key) (encodeMeta E (E.cfgSet cfg TIME_FIELD (E.asISO8601 now)))]

/-- Source: `write`: `now` is the clock reading of `DateTime now`, `commitOk` the status of
the batch, `pr` the store's answers to the purge the post-write hook may run. -/
def write (E : Env Obj Config DateTime Policy) (bin : CacheBin) (s : State Policy)
    (now : DateTime) (commitOk : Bool) (pr : Resp) (key : Str) (object : Option Obj)
    (cfg : Config) : Bool × State Policy :=
  match s.db, object with
  | none, _ => (false, s)
  | some _, none => (false, s)
  | some db, some obj =>
    match encodeObject E obj with
    | none => (false, s)
    | some data =>
      if commitOk then
        let s1 := { s with db := some (db.applyBatch (writeBatch E bin now key data cfg)),
                           tracker := { s.tracker with writes := s.tracker.writes + 1 } }
        (true, postWrite E bin s1 pr)
      else (false, s)

def getRecordStatus (E : Env Obj Config DateTime Policy) (bin : CacheBin) (s : State Policy)
    (key : Str) (minTime : Int) : RecordStatus :=
  match s.db with
  | none => .notFound
  | some db =>
    match db.get (metaKey bin key) with
    | some metavalue =>
      let minValidTime := max minTime bin.minValidTime
      if 0 < minValidTime ∧
          E.asTimeStamp (recordTime E (decodeMeta E metavalue E.cfgEmpty)) < minValidTime then
        .expired
      else .ok
    | none => .notFound

def remove (E : Env Obj Config DateTime Policy) (bin : CacheBin) (s : State Policy)
    (commitOk : Bool) (key : Str) : Bool × State Policy :=
  match s.db with
  | none => (false, s)
  | some db =>
    match db.get (metaKey bin key) with
    | none => (false, s)
    | some metavalue =>
      let t := recordTime E (decodeMeta E metavalue E.cfgEmpty)
      let batch : List Op :=
        [.delete (dataKey bin key), .delete (metaKey bin key), .delete (timeKey E bin t key)]
      if commitOk then (true, { s with db := some (db.applyBatch batch) })
      else (false, s)

/-- Source: `touch`: `now` is the clock reading of `DateTime()`. The new time stamp is
the string `newtime`, which `timeKey` receives converted back to a `DateTime`. -/
def touch (E : Env Obj Config DateTime Policy) (bin : CacheBin) (s : State Policy)
    (now : DateTime) (commitOk : Bool) (key : Str) : Bool × State Policy :=
  match s.db with
  | none => (false, s)
  | some db =>
    match db.get (metaKey bin key) with
    | none => (false, s)
    | some metavalue =>
      let metadata := decodeMeta E metavalue E.cfgEmpty
      let oldtime := recordTime E metadata
      let newtime := E.asISO8601 now
      let batch : List Op :=
        [.put (metaKey bin key) (encodeMeta E (E.cfgSet metadata TIME_FIELD newtime)),
         .delete (timeKey E bin oldtime key),
         .put (timeKey E bin (E.parseDateTime newtime) key) key]
      if commitOk then (true, { s with db := some (db.applyBatch batch) })
      else (false, s)

/-- The batch of `purge`: a delete for every key in `[dataBegin, dataEnd)`. -/
def purgeBatch (bin : CacheBin) (db : Store) : List Op :=
  ((db.seek (dataBegin bin)).takeWhile fun e => strLt e.1 (dataEnd bin)).map fun e => .delete e.1

def purge (bin : CacheBin) (s : State Policy) (commitOk : Bool) : Bool × State Policy :=
  match s.db with
  | none => (false, s)
  | some db =>
    if commitOk then (true, { s with db := some (db.applyBatch (purgeBatch bin db)) })
    else (false, s)

def compact (s : State Policy) : Bool × State Policy :=
  match s.db with
  | none => (false, s)
  | some _ => (false, { s with trace := s.trace ++ [.compactRange] })

/-- The sum is formed in `uint64_t` and returned as `unsigned`. -/
def getStorageSize (E : Env Obj Config DateTime Policy) (bin : CacheBin) (s : State Policy) : Nat :=
  match s.db with
  | none => 0
  | some db =>
    let size0 := E.approximateSize db (dataBegin bin) (dataEnd bin) % 2 ^ 64
    let size1 := E.approximateSize db (metaBegin bin) (metaEnd bin) % 2 ^ 64
    let size2 := E.approximateSize db (timeBegin bin) (timeEnd bin) % 2 ^ 64
    (size0 + size1 + size2) % 2 ^ 64 % 2 ^ 32

def readMetadata (E : Env Obj Config DateTime Policy) (bin : CacheBin) (s : State Policy) : Config :=
  match s.db with
  | none => E.cfgEmpty
  | some db =>
    match db.get (binKey bin) with
    | none => E.cfgEmpty
    | some binvalue => decodeMeta E binvalue E.cfgEmpty

/-- Source: `writeMetadata`: `putOk` is the status of the `Put`. -/
def writeMetadata (E : Env Obj Config DateTime Policy) (bin : CacheBin) (s : State Policy)
    (putOk : Bool) (conf : Config) : Bool × State Policy :=
  match s.db with
  | none => (false, s)
  | some db =>
    let value := encodeMeta E (E.cfgSet conf CACHE_VERSION_FIELD E.cacheVersion)
    if putOk then (true, { s with db := some (db.put (binKey bin) value) })
    else (false, s)

end Ops

/-! ## A sample instantiation

Small stand-ins for the collaborators, used to run the operations on concrete
stores: objects are tagged payloads, a configuration is an association list,
and a date is a number of seconds rendered as four decimal digits. -/

namespace Sample

inductive SObj where
  | image (pixels : Str)
  | node (graph : Str)
  | text (value : Str)
  deriving DecidableEq, Repr

abbrev Cfg := List (Str × Str)

def cfgSet (c : Cfg) (k v : Str) : Cfg :=
  (c.filter fun e => decide (e.1 ≠ k)) ++ [(k, v)]

def cfgValue : Cfg → Str → Str
  | [], _ => []
  | (k', v) :: rest, k => if k' = k then v else cfgValue rest k

/-- Each field as its length followed by its bytes. -/
def toJSON : Cfg → Str
  | [] => []
  | (k, v) :: rest => [Fin.ofNat k.length] ++ k ++ [Fin.ofNat v.length] ++ v ++ toJSON rest

def parseFields : Nat → Str → Cfg
  | 0, _ => []
  | _ + 1, [] => []
  | fuel + 1, n :: rest =>
    match rest.drop n.val with
    | [] => []
    | m :: rest2 => (rest.take n.val, rest2.take m.val) :: parseFields fuel (rest2.drop m.val)

def fromJSON (c : Cfg) (text : Str) : Cfg :=
  (parseFields text.length text).foldl (fun acc e => cfgSet acc e.1 e.2) c

def digit (n : Nat) : Byte := Fin.ofNat (48 + n % 10)

def asISO8601 (t : Nat) : Str :=
  [digit (t / 1000), digit (t / 100), digit (t / 10), digit t]

def parseDateTime : Str → Nat
  | [a, b, c, d] => (a.val - 48) * 1000 + (b.val - 48) * 100 + (c.val - 48) * 10 + (d.val - 48)
  | _ => 0

def encode : SObj → Option Str
  | .image px => some (1 :: px)
  | .node g => some (2 :: g)
  | .text v => some (3 :: v)

def decodeAny : Str → Option SObj
  | 1 :: px => some (.image px)
  | 2 :: g => some (.node g)
  | 3 :: v => some (.text v)
  | _ => none

def decodeImage : Str → Option SObj
  | 1 :: px => some (.image px)
  | _ => none

def decodeNode : Str → Option SObj
  | 2 :: g => some (.node g)
  | _ => none

/-- The tracker's own state: the size budget, the size last measured, whether
a purge and a size check are due, and the batch size of a purge. -/
structure Policy where
  maxSize : Option Nat
  size : Nat
  purgeDue : Bool
  checkDue : Bool
  batch : Nat
  deriving DecidableEq, Repr

def storeBytes : Option Store → Nat
  | none => 0
  | some db => (db.map fun e => e.1.length + e.2.length).sum

def env : Env SObj Cfg Nat Policy where
  isImage := fun o => match o with | .image _ => true | _ => false
  isNode := fun o => match o with | .node _ => true | _ => false
  writeImage := encode
  writeNode := encode
  writeObject := encode
  imageReader := decodeImage
  objectReader := decodeAny
  nodeReader := decodeNode
  isStringObject := fun o => match o with | .text _ => true | _ => false
  cfgEmpty := []
  cfgSet := cfgSet
  cfgValue := cfgValue
  toJSON := toJSON
  fromJSON := fromJSON
  asISO8601 := asISO8601
  parseDateTime := parseDateTime
  asTimeStamp := fun t => (t : Int)
  hasSizeLimit := fun t => t.policy.maxSize.isSome
  isOverLimit := fun t => match t.policy.maxSize with | some m => decide (m < t.policy.size) | none => false
  isTimeToPurge := fun t => (t.policy.purgeDue, { t.policy with purgeDue := false })
  numToPurge := fun t => t.policy.batch
  isTimeToCheckSize := fun t => (t.policy.checkDue, { t.policy with checkDue := false })
  calcSize := fun t db => { t.policy with size := storeBytes db }
  approximateSize := fun db b e =>
    ((db.filter fun x => !strLt x.1 b && strLt x.1 e).map fun x => x.1.length + x.2.length).sum
  cacheVersion := [49]

/-- A tracker with no size budget. -/
def noLimit : Tracker Policy :=
  { reads := 0, hits := 0, writes := 0,
    policy := { maxSize := none, size := 0, purgeDue := false, checkDue := false, batch := 0 } }

/-- A tracker over its budget, with a purge of one record due. -/
def overLimit : Tracker Policy :=
  { reads := 0, hits := 0, writes := 0,
    policy := { maxSize := some 1, size := 2, purgeDue := true, checkDue := false, batch := 1 } }

/-- A store that accepts every batch and whose iterator reports no error. -/
def allOk : Resp := { iterOk := fun _ => true, commitOk := true }

/-- Bin `"a"` and bin `"b"`, neither with a minimum valid time. -/
def binA : CacheBin := { id := [97], minValidTime := 0 }

def binB : CacheBin := { id := [98], minValidTime := 0 }

/-- An available, empty store. -/
def empty (t : Tracker Policy) : State Policy := { db := some [], tracker := t, trace := [] }

/-- The state after a successful `write` of the text `payload` under `key`, with
no caller metadata, at clock reading `now`. -/
def wrote (bin : CacheBin) (s : State Policy) (now : Nat) (key payload : Str) : State Policy :=
  (write env bin s now true allOk key (some (.text payload)) []).2

/-- Key `"k"` written in bin `"a"` at time 1, then key `"k"` in bin `"b"` at time 2. -/
def sameKeyTwoBins : State Policy :=
  wrote binB (wrote binA (empty noLimit) 1 [107] [1]) 2 [107] [2]

/-- Key `"k"` written in bin `"a"` at time 1, then key `"j"` in bin `"b"` at time 2. -/
def twoBins : State Policy :=
  wrote binB (wrote binA (empty noLimit) 1 [107] [1]) 2 [106] [2]

/-- Key `"k"` written in bin `"a"` at time 1 and written again at time 2. -/
def overwritten : State Policy :=
  wrote binA (wrote binA (empty noLimit) 1 [107] [1]) 2 [107] [2]

/-- The sample instantiation with a clock that starts ten seconds before the
epoch: `asTimeStamp` of clock reading `t` is `t - 10`. -/
def envBeforeEpoch : Env SObj Cfg Nat Policy :=
  { env with asTimeStamp := fun t => (t : Int) - 10 }

/-- Bin `"a"` with minimum valid time 9. -/
def binLate : CacheBin := { id := [97], minValidTime := 9 }

/-- Key `"k"` written in bin `"a"` at time 1. -/
def oneRecord : State Policy := wrote binA (empty noLimit) 1 [107] [1]

/-- The record key `"\xff"` written in bin `"a"` at time 1. -/
def oneRecord0xff : State Policy := wrote binA (empty noLimit) 1 [255] [1]

end Sample

/-! ## Statements to compare the code with -/

section Statements

variable {Obj Config DateTime Policy : Type}

/-- The tracker conditions under which the post-write hook runs `purgeOldest`. -/
def purgeDue (E : Env Obj Config DateTime Policy) (t : Tracker Policy) : Bool :=
  E.hasSizeLimit t && E.isOverLimit t && (E.isTimeToPurge t).1

/-- The decision procedure stated for `read`: not found without a store; expired
when the metadata record is present, the effective minimum time is positive and
the stored time stamp is strictly earlier; otherwise not found without a data
record, a reader error when its bytes do not decode, and else the decoded object
with the metadata map, which is empty when there is no metadata record. -/
def readDecision (E : Env Obj Config DateTime Policy) (bin : CacheBin) (s : State Policy)
    (key : Str) (minTime : Int) (reader : Str → Option Obj) : ReadResult Obj Config :=
  match s.db with
  | none => .notFound
  | some db =>
    let effectiveMinTime := max minTime bin.minValidTime
    let metaRecord := (db.get (metaKey bin key)).map fun bytes => E.fromJSON E.cfgEmpty bytes
    let isExpired : Bool :=
      match metaRecord with
      | some m =>
        decide (effectiveMinTime > 0) &&
          decide (E.asTimeStamp (E.parseDateTime (E.cfgValue m TIME_FIELD)) < effectiveMinTime)
      | none => false
    if isExpired then .expired
    else
      match db.get (dataKey bin key) with
      | none => .notFound
      | some bytes =>
        match reader bytes with
        | none => .readerError
        | some object => .ok object (metaRecord.getD E.cfgEmpty)

/-- The status stated for `getRecordStatus`, from steps 1-3 of `read`: not found
without a store, expired exactly when `read` answers expired, and ok in every
other case, in which `read` goes on to fetch the data record. -/
def statusFromReadSteps (E : Env Obj Config DateTime Policy) (bin : CacheBin) (s : State Policy)
    (key : Str) (minTime : Int) (reader : Str → Option Obj) : RecordStatus :=
  match s.db with
  | none => .notFound
  | some _ =>
    match (read E bin s key minTime reader).1 with
    | .expired => .expired
    | _ => .ok

/-- The data/metadata pairing: a data record is present exactly when the
metadata record of the same bin and key is. -/
def Paired (db : Store) : Prop :=
  ∀ (bin : CacheBin) (key : Str),
    (db.get (dataKey bin key)).isSome ↔ (db.get (metaKey bin key)).isSome

/-- The time-index entries of the record `key` of `bin`: the entries with a key
of the form `"t" SEP time SEP binID SEP key` and the value `key`. -/
def timeEntries (bin : CacheBin) (key : Str) (db : Store) : List (Str × Str) :=
  db.filter fun e =>
    timeBeginGlobal.isPrefixOf e.1 && (SEP ++ bin.id ++ SEP ++ key).isSuffixOf e.1 && e.2 == key

/-- A string that holds no separator byte `!`. -/
def noSep (s : Str) : Prop := (33 : Byte) ∉ s

/-- The key `k` lies in the range `[first, last)` of the bytewise order. -/
def InRange (k first last : Str) : Prop := strLt k first = false ∧ strLt k last = true

instance (s : Str) : Decidable (noSep s) :=
  inferInstanceAs (Decidable ((33 : Byte) ∉ s))

instance (k first last : Str) : Decidable (InRange k first last) :=
  inferInstanceAs (Decidable (strLt k first = false ∧ strLt k last = true))

/-- Modelled from the spec: the bytes of an ISO-8601 UTC time with fixed-width,
zero-padded fields (the text `DateTime::asISO8601` returns, a class not in the
file): decimal digits and the marks `-`, `:`, `T` and `Z`. -/
def isoByte (c : Byte) : Bool :=
  (decide (48 ≤ c.val) && decide (c.val ≤ 57)) || c == 45 || c == 58 || c == 84 || c == 90

/-- Modelled from the spec: a string of ISO-8601 bytes. -/
def IsoText (s : Str) : Prop := s.all isoByte = true

instance (s : Str) : Decidable (IsoText s) :=
  inferInstanceAs (Decidable (s.all isoByte = true))

/-- The entry `x` comes before the entry `y` in the list `l`. -/
def Before (x y : Str × Str) (l : List (Str × Str)) : Prop :=
  ∃ pre mid post, l = pre ++ x :: (mid ++ y :: post)

end Statements

end LevelDBCache

namespace LevelDBCache

/-! ## The store -/

theorem Store.get_put (s : Store) (k v k' : Str) :
    (s.put k v).get k' = if k' = k then some v else s.get k' := by
  induction s with
  | nil => simp [Store.put, Store.get, eq_comm]
  | cons e rest ih =>
    obtain ⟨a, b⟩ := e
    simp only [Store.put]
    by_cases h1 : k = a
    · subst h1
      by_cases h2 : k' = k
      · simp [Store.get, h2]
      · have h3 : ¬ k = k' := fun h => h2 h.symm
        simp [Store.get, h2, h3]
    · simp only [h1, if_false]
      by_cases h2 : strLt k a = true
      · simp only [h2, if_true]
        by_cases h3 : k' = k
        · simp [Store.get, h3]
        · have h4 : ¬ k = k' := fun h => h3 h.symm
          simp [Store.get, h3, h4]
      · simp only [h2]
        by_cases h3 : a = k'
        · have h4 : ¬ k' = k := fun h => h1 (h3 ▸ h.symm)
          simp [Store.get, h3, h4]
        · simp [Store.get, h3, ih]

theorem Store.get_delete (s : Store) (k k' : Str) :
    (s.delete k).get k' = if k' = k then none else s.get k' := by
  induction s with
  | nil => simp [Store.delete, Store.get]
  | cons e rest ih =>
    obtain ⟨a, b⟩ := e
    simp only [Store.delete, ne_eq, decide_not] at ih ⊢
    by_cases h1 : a = k
    · subst h1
      by_cases h2 : k' = a
      · subst h2
        simpa [List.filter] using ih
      · have h3 : ¬ a = k' := fun h => h2 h.symm
        simpa [List.filter, h2, h3, Store.get] using ih
    · by_cases h2 : a = k'
      · have h3 : ¬ k' = k := fun h => h1 (h2.trans h)
        simp [List.filter, h1, h2, h3, Store.get]
      · simpa [List.filter, h1, h2, Store.get] using ih

/-! ## The key codec -/

theorem dataKey_cons (bin : CacheBin) (key : Str) :
    dataKey bin key = 100 :: 33 :: (bin.id ++ 33 :: key) := by
  simp [dataKey, SEP]

theorem metaKey_cons (bin : CacheBin) (key : Str) :
    metaKey bin key = 109 :: 33 :: (bin.id ++ 33 :: key) := by
  simp [metaKey, SEP]

theorem binKey_cons (bin : CacheBin) : binKey bin = 98 :: 33 :: bin.id := by
  simp [binKey, SEP]

section KeyLemmas

variable {Obj Config DateTime Policy : Type}

theorem timeKey_cons (E : Env Obj Config DateTime Policy) (bin : CacheBin) (t : DateTime)
    (key : Str) :
    timeKey E bin t key = 116 :: 33 :: (E.asISO8601 t ++ 33 :: (bin.id ++ 33 :: key)) := by
  simp [timeKey, SEP]

theorem metaKey_ne_dataKey (b1 b2 : CacheBin) (k1 k2 : Str) : metaKey b1 k1 ≠ dataKey b2 k2 := by
  rw [metaKey_cons, dataKey_cons]
  intro h
  have := (List.cons.inj h).1
  exact absurd this (by decide)

theorem timeKey_ne_dataKey (E : Env Obj Config DateTime Policy) (b1 b2 : CacheBin) (t : DateTime)
    (k1 k2 : Str) : timeKey E b1 t k1 ≠ dataKey b2 k2 := by
  rw [timeKey_cons, dataKey_cons]
  intro h
  have := (List.cons.inj h).1
  exact absurd this (by decide)

theorem timeKey_ne_metaKey (E : Env Obj Config DateTime Policy) (b1 b2 : CacheBin) (t : DateTime)
    (k1 k2 : Str) : timeKey E b1 t k1 ≠ metaKey b2 k2 := by
  rw [timeKey_cons, metaKey_cons]
  intro h
  have := (List.cons.inj h).1
  exact absurd this (by decide)

end KeyLemmas

/-! ## Reading -/

section Reading

variable {Obj Config DateTime Policy : Type}

theorem readData_fst (bin : CacheBin) (s : State Policy) (db : Store) (key : Str)
    (reader : Str → Option Obj) (metadata : Config) :
    (readData bin s db key reader metadata).1 =
      match db.get (dataKey bin key) with
      | none => .notFound
      | some bytes =>
        match reader bytes with
        | none => .readerError
        | some object => .ok object metadata := by
  unfold readData
  cases db.get (dataKey bin key) with
  | none => rfl
  | some bytes =>
    simp only []
    cases reader bytes <;> rfl

/-- C2: the result of `read` is the result of the stated decision procedure, for
every state, bin, key, minimum time and reader. -/
theorem read_eq_readDecision (E : Env Obj Config DateTime Policy) (bin : CacheBin)
    (s : State Policy) (key : Str) (minTime : Int) (reader : Str → Option Obj) :
    (read E bin s key minTime reader).1 = readDecision E bin s key minTime reader := by
  unfold read readDecision
  cases hdb : s.db with
  | none => rfl
  | some db =>
    simp only []
    cases hm : db.get (metaKey bin key) with
    | none =>
      simp only [Option.map_none', readData_fst]
      simp
    | some mv =>
      simp only [Option.map_some', recordTime, decodeMeta]
      by_cases hexp : 0 < max minTime bin.minValidTime ∧
          E.asTimeStamp (E.parseDateTime (E.cfgValue (E.fromJSON E.cfgEmpty mv) TIME_FIELD)) <
            max minTime bin.minValidTime
      · simp [hexp]
      · have hexp2 := hexp
        rw [not_and] at hexp2
        rw [if_neg hexp, readData_fst]
        by_cases h0 : 0 < max minTime bin.minValidTime
        · simp [h0, hexp2 h0]
        · simp [h0]

theorem getRecordStatus_of_meta (E : Env Obj Config DateTime Policy) (bin : CacheBin)
    (s : State Policy) (key : Str) (minTime : Int) (reader : Str → Option Obj) (db : Store)
    (hdb : s.db = some db) :
    getRecordStatus E bin s key minTime =
      if (db.get (metaKey bin key)).isSome then statusFromReadSteps E bin s key minTime reader
      else .notFound := by
  unfold getRecordStatus statusFromReadSteps read
  rw [hdb]
  simp only []
  cases hm : db.get (metaKey bin key) with
  | none => simp
  | some mv =>
    simp only [Option.isSome_some, if_true]
    by_cases hexp : 0 < max minTime bin.minValidTime ∧
        E.asTimeStamp (recordTime E (decodeMeta E mv E.cfgEmpty)) < max minTime bin.minValidTime
    · simp [hexp]
    · rw [if_neg hexp, if_neg hexp, readData_fst]
      cases db.get (dataKey bin key) with
      | none => rfl
      | some bytes =>
        simp only []
        cases reader bytes <;> rfl

/-- C3, as the code has it: `getRecordStatus` is not found when the store is
unavailable and also when the metadata record is absent; when the record is
present it is expired exactly when `read` answers expired and ok otherwise; and
putting or deleting the data record never changes it. -/
theorem getRecordStatus_spec (E : Env Obj Config DateTime Policy) (bin : CacheBin)
    (key : Str) (minTime : Int) (reader : Str → Option Obj) (tracker : Tracker Policy)
    (trace : List Event) :
    getRecordStatus E bin { db := none, tracker := tracker, trace := trace } key minTime
        = .notFound ∧
    (∀ db : Store,
      getRecordStatus E bin { db := some db, tracker := tracker, trace := trace } key minTime =
        if (db.get (metaKey bin key)).isSome then
          statusFromReadSteps E bin { db := some db, tracker := tracker, trace := trace }
            key minTime reader
        else .notFound) ∧
    (∀ (db : Store) (v : Str),
      getRecordStatus E bin
          { db := some (db.put (dataKey bin key) v), tracker := tracker, trace := trace }
          key minTime =
        getRecordStatus E bin { db := some db, tracker := tracker, trace := trace } key minTime) ∧
    (∀ db : Store,
      getRecordStatus E bin
          { db := some (db.delete (dataKey bin key)), tracker := tracker, trace := trace }
          key minTime =
        getRecordStatus E bin { db := some db, tracker := tracker, trace := trace } key minTime) := by
  refine ⟨rfl, fun db => getRecordStatus_of_meta E bin _ key minTime reader db rfl, ?_, ?_⟩
  · intro db v
    simp only [getRecordStatus, Store.get_put, if_neg (metaKey_ne_dataKey bin bin key key)]
  · intro db
    simp only [getRecordStatus, Store.get_delete, if_neg (metaKey_ne_dataKey bin bin key key)]

/-- C3, as stated, fails: in an available store that holds no metadata record
for the key, `read` goes on to the data fetch (and returns the object when the
data record is there), yet `getRecordStatus` is not found, not ok. -/
theorem getRecordStatus_ne_statusFromReadSteps :
    getRecordStatus Sample.env Sample.binA (Sample.empty Sample.noLimit) [107] 0 ≠
      statusFromReadSteps Sample.env Sample.binA (Sample.empty Sample.noLimit) [107] 0
        Sample.decodeAny ∧
    getRecordStatus Sample.env Sample.binA (Sample.empty Sample.noLimit) [107] 0
        = .notFound ∧
    statusFromReadSteps Sample.env Sample.binA (Sample.empty Sample.noLimit) [107] 0
        Sample.decodeAny = .ok ∧
    (read Sample.env Sample.binA
        { db := some [(dataKey Sample.binA [107], [3, 1, 2])], tracker := Sample.noLimit,
          trace := [] } [107] 0 Sample.decodeAny).1 = .ok (.text [1, 2]) [] ∧
    getRecordStatus Sample.env Sample.binA
        { db := some [(dataKey Sample.binA [107], [3, 1, 2])], tracker := Sample.noLimit,
          trace := [] } [107] 0 = .notFound ∧
    statusFromReadSteps Sample.env Sample.binA
        { db := some [(dataKey Sample.binA [107], [3, 1, 2])], tracker := Sample.noLimit,
          trace := [] } [107] 0 Sample.decodeAny = .ok := by
  decide

end Reading

/-! ## Writing -/

section Writing

variable {Obj Config DateTime Policy : Type}

theorem purgeOldest_tracker (bin : CacheBin) (s : State Policy) (r : Resp) (maxnum : Nat) :
    (purgeOldest bin s r maxnum).2.tracker = s.tracker := by
  unfold purgeOldest
  cases s.db with
  | none => rfl
  | some db =>
    simp only []
    cases r.commitOk <;> rfl

theorem purgeOldest_trace (bin : CacheBin) (s : State Policy) (r : Resp) (maxnum : Nat) :
    (purgeOldest bin s r maxnum).2.trace = s.trace := by
  unfold purgeOldest
  cases s.db with
  | none => rfl
  | some db =>
    simp only []
    cases r.commitOk <;> rfl

theorem postWrite_writes (E : Env Obj Config DateTime Policy) (bin : CacheBin)
    (s : State Policy) (r : Resp) :
    (postWrite E bin s r).tracker.writes = s.tracker.writes := by
  unfold postWrite
  simp only []
  split_ifs <;> simp [purgeOldest_tracker]

theorem postWrite_trace (E : Env Obj Config DateTime Policy) (bin : CacheBin)
    (s : State Policy) (r : Resp) :
    ∃ rest, (postWrite E bin s r).trace = s.trace ++ Event.postWrite :: rest := by
  unfold postWrite
  simp only []
  split_ifs
  · simp only [purgeOldest_trace, List.append_assoc, List.singleton_append]
    exact ⟨_, rfl⟩
  · exact ⟨[], rfl⟩
  · exact ⟨[.calcSize], by simp⟩
  · exact ⟨[], rfl⟩
  · exact ⟨[], rfl⟩

theorem postWrite_db (E : Env Obj Config DateTime Policy) (bin : CacheBin)
    (s : State Policy) (r : Resp) (h : purgeDue E s.tracker = false) :
    (postWrite E bin s r).db = s.db := by
  unfold postWrite
  unfold purgeDue at h
  simp only []
  split_ifs with h1 h2 h3 h4
  · simp [h1, h2, h3] at h
  · rfl
  · rfl
  · rfl
  · rfl

/-- C9: `write` returns false exactly when the store is unavailable, the object
is absent, its encoding fails or the store rejects the batch; then the whole
state (store, counters, record of calls) is as before, so the write counter and
the post-write hook are untouched. When it returns true the write counter is
one higher and the post-write hook has run. -/
theorem write_failure_atomic (E : Env Obj Config DateTime Policy) (bin : CacheBin)
    (s : State Policy) (now : DateTime) (commitOk : Bool) (pr : Resp) (key : Str)
    (object : Option Obj) (cfg : Config) :
    ((write E bin s now commitOk pr key object cfg).1 = false ↔
      (s.db = none ∨ object = none ∨ (∃ o, object = some o ∧ encodeObject E o = none) ∨
        commitOk = false)) ∧
    ((write E bin s now commitOk pr key object cfg).1 = false →
      (write E bin s now commitOk pr key object cfg).2 = s) ∧
    ((write E bin s now commitOk pr key object cfg).1 = true →
      (write E bin s now commitOk pr key object cfg).2.tracker.writes = s.tracker.writes + 1 ∧
      ∃ rest, (write E bin s now commitOk pr key object cfg).2.trace =
        s.trace ++ Event.postWrite :: rest) := by
  unfold write
  cases hdb : s.db with
  | none => simp
  | some db =>
    cases object with
    | none => simp
    | some obj =>
      simp only []
      cases henc : encodeObject E obj with
      | none => simp [henc]
      | some data =>
        cases commitOk with
        | false => simp
        | true =>
          simp only [if_true, postWrite_writes]
          refine ⟨by simp [henc], by simp, fun _ => ⟨trivial, ?_⟩⟩
          exact postWrite_trace E bin _ pr

end Writing

section RoundTrip

variable {Obj Config DateTime Policy : Type}

/-- The store after the batch of `write` holds the data and the metadata record. -/
theorem get_writeBatch (E : Env Obj Config DateTime Policy) (bin : CacheBin) (db : Store)
    (now : DateTime) (key data : Str) (cfg : Config) :
    (db.applyBatch (writeBatch E bin now key data cfg)).get (dataKey bin key) = some data ∧
    (db.applyBatch (writeBatch E bin now key data cfg)).get (metaKey bin key) =
      some (encodeMeta E (E.cfgSet cfg TIME_FIELD (E.asISO8601 now))) := by
  have h1 : dataKey bin key ≠ metaKey bin key := fun h => metaKey_ne_dataKey bin bin key key h.symm
  have h2 : dataKey bin key ≠ timeKey E bin now key :=
    fun h => timeKey_ne_dataKey E bin bin now key key h.symm
  simp [Store.applyBatch, writeBatch, Store.applyOp, Store.get_put, h1, h2]

/-- C1, as the code has it: when the object's encoding succeeds and decodes back
to the object, `write` returns true, the post-write hook is not due to purge, and
the bin's minimum valid time is not positive or not later than the time stamp
read back from the metadata just written, then `read` with `minTime = 0` on the
resulting state returns the object. -/
theorem write_read_roundtrip (E : Env Obj Config DateTime Policy) (bin : CacheBin)
    (s : State Policy) (now : DateTime) (commitOk : Bool) (pr : Resp) (key : Str) (obj : Obj)
    (cfg : Config) (reader : Str → Option Obj) (data : Str)
    (henc : encodeObject E obj = some data) (hdec : reader data = some obj)
    (hw : (write E bin s now commitOk pr key (some obj) cfg).1 = true)
    (hpurge : purgeDue E { s.tracker with writes := s.tracker.writes + 1 } = false)
    (hvalid : bin.minValidTime ≤ 0 ∨
      bin.minValidTime ≤ E.asTimeStamp (recordTime E (decodeMeta E
        (encodeMeta E (E.cfgSet cfg TIME_FIELD (E.asISO8601 now))) E.cfgEmpty))) :
    ∃ metadata,
      (read E bin (write E bin s now commitOk pr key (some obj) cfg).2 key 0 reader).1 =
        .ok obj metadata := by
  unfold write at hw ⊢
  cases hdb : s.db with
  | none => simp [hdb] at hw
  | some db =>
    simp only [hdb, henc] at hw ⊢
    cases commitOk with
    | false => simp at hw
    | true =>
      simp only [if_true]
      obtain ⟨hd, hm⟩ := get_writeBatch E bin db now key data cfg
      refine ⟨decodeMeta E (encodeMeta E (E.cfgSet cfg TIME_FIELD (E.asISO8601 now))) E.cfgEmpty, ?_⟩
      unfold read
      rw [postWrite_db E bin _ pr hpurge]
      simp only [hm]
      have hnot : ¬ (0 < max 0 bin.minValidTime ∧
          E.asTimeStamp (recordTime E (decodeMeta E
            (encodeMeta E (E.cfgSet cfg TIME_FIELD (E.asISO8601 now))) E.cfgEmpty)) <
            max 0 bin.minValidTime) := by
        rintro ⟨h0, h1⟩
        rcases hvalid with h | h
        · have : max 0 bin.minValidTime = 0 := max_eq_left h
          omega
        · rcases le_total 0 bin.minValidTime with h2 | h2
          · rw [max_eq_right h2] at h1
            omega
          · rw [max_eq_left h2] at h0
            omega
      rw [if_neg hnot, readData_fst, hd]
      simp only [hdec]

/-- A use of `write_read_roundtrip`: a text object written to the empty store
of the sample instantiation. -/
theorem write_read_roundtrip_witness :
    ∃ metadata,
      (read Sample.env Sample.binA
        (write Sample.env Sample.binA (Sample.empty Sample.noLimit) 5 true Sample.allOk [107]
          (some (.text [1, 2])) []).2 [107] 0 Sample.decodeAny).1 =
        .ok (.text [1, 2]) metadata :=
  write_read_roundtrip Sample.env Sample.binA (Sample.empty Sample.noLimit) 5 true Sample.allOk
    [107] (.text [1, 2]) [] Sample.decodeAny [3, 1, 2] (by decide) (by decide) (by decide)
    (by decide) (Or.inl (by decide))

/-- C1, as stated, fails twice. With a tracker over its size budget the
post-write hook purges the three oldest records, the one just written among
them, and the read is not found. In a bin whose minimum valid time (9) is later
than the time of the write (5) the read with `minTime = 0` is expired. -/
theorem write_read_roundtrip_fails :
    (encodeObject Sample.env (.text [1, 2]) = some [3, 1, 2] ∧
      Sample.decodeAny [3, 1, 2] = some (.text [1, 2]) ∧
      (write Sample.env Sample.binA (Sample.empty Sample.overLimit) 5 true Sample.allOk [107]
        (some (.text [1, 2])) []).1 = true ∧
      (read Sample.env Sample.binA
        (write Sample.env Sample.binA (Sample.empty Sample.overLimit) 5 true Sample.allOk [107]
          (some (.text [1, 2])) []).2 [107] 0 Sample.decodeAny).1 = .notFound) ∧
    ((write Sample.env { id := [97], minValidTime := 9 } (Sample.empty Sample.noLimit) 5 true
        Sample.allOk [107] (some (.text [1, 2])) []).1 = true ∧
      (read Sample.env { id := [97], minValidTime := 9 }
        (write Sample.env { id := [97], minValidTime := 9 } (Sample.empty Sample.noLimit) 5 true
          Sample.allOk [107] (some (.text [1, 2])) []).2 [107] 0 Sample.decodeAny).1 = .expired) := by
  decide

end RoundTrip

section Removing

variable {Obj Config DateTime Policy : Type}

theorem remove_of_no_meta (E : Env Obj Config DateTime Policy) (bin : CacheBin)
    (s : State Policy) (commitOk : Bool) (key : Str)
    (h : ∀ db, s.db = some db → db.get (metaKey bin key) = none) :
    remove E bin s commitOk key = (false, s) := by
  unfold remove
  cases hdb : s.db with
  | none => rfl
  | some db => simp only [h db hdb]

/-- C10: after a `remove` that returned true, a second `remove` of the same key
returns false and leaves the state as the first call left it; and `remove`
returns false and changes nothing whenever the metadata record is absent. -/
theorem remove_idempotent (E : Env Obj Config DateTime Policy) (bin : CacheBin)
    (s : State Policy) (first second : Bool) (key : Str) :
    ((remove E bin s first key).1 = true →
      remove E bin (remove E bin s first key).2 second key =
        (false, (remove E bin s first key).2)) ∧
    ((∀ db, s.db = some db → db.get (metaKey bin key) = none) →
      remove E bin s first key = (false, s)) := by
  refine ⟨fun h => ?_, remove_of_no_meta E bin s first key⟩
  apply remove_of_no_meta
  intro db' hdb'
  unfold remove at h hdb'
  cases hdb : s.db with
  | none => simp [hdb] at h
  | some db =>
    simp only [hdb] at h hdb'
    cases hm : db.get (metaKey bin key) with
    | none => simp [hm] at h
    | some mv =>
      simp only [hm] at h hdb'
      cases first with
      | false => simp at h
      | true =>
        simp only [if_true, Option.some.injEq] at hdb'
        subst hdb'
        simp [Store.applyBatch, Store.applyOp, Store.get_delete, timeKey_ne_metaKey,
          metaKey_ne_dataKey]

/-- A use of `remove_idempotent`: a record is written, removed, and removed again. -/
theorem remove_idempotent_witness :
    remove Sample.env Sample.binA
        (remove Sample.env Sample.binA
          (write Sample.env Sample.binA (Sample.empty Sample.noLimit) 5 true Sample.allOk [107]
            (some (.text [1, 2])) []).2 true [107]).2 true [107] =
      (false,
        (remove Sample.env Sample.binA
          (write Sample.env Sample.binA (Sample.empty Sample.noLimit) 5 true Sample.allOk [107]
            (some (.text [1, 2])) []).2 true [107]).2) ∧
    remove Sample.env Sample.binA (Sample.empty Sample.noLimit) true [107] =
      (false, Sample.empty Sample.noLimit) :=
  ⟨(remove_idempotent Sample.env Sample.binA
      (write Sample.env Sample.binA (Sample.empty Sample.noLimit) 5 true Sample.allOk [107]
        (some (.text [1, 2])) []).2 true true [107]).1 (by decide),
   (remove_idempotent Sample.env Sample.binA (Sample.empty Sample.noLimit) true true [107]).2
      (by intro db h; cases h; rfl)⟩

end Removing

section Unavailable

variable {Obj Config DateTime Policy : Type}

/-- C8: with a null store pointer every read is not found, `getRecordStatus` is
not found, every mutating operation and `compact` return false,
`getStorageSize` is 0 and `readMetadata` is the empty configuration; the state
after each call (store pointer, counters, record of calls) is the state before. -/
theorem unavailable_fails_closed (E : Env Obj Config DateTime Policy) (bin : CacheBin)
    (tracker : Tracker Policy) (trace : List Event) (key : Str) (minTime : Int)
    (reader : Str → Option Obj) (now : DateTime) (commitOk : Bool) (r : Resp)
    (object : Option Obj) (cfg : Config) (maxnum : Nat) :
    read E bin { db := none, tracker := tracker, trace := trace } key minTime reader =
      (.notFound, { db := none, tracker := tracker, trace := trace }) ∧
    readImage E bin { db := none, tracker := tracker, trace := trace } key minTime =
      (.notFound, { db := none, tracker := tracker, trace := trace }) ∧
    readObject E bin { db := none, tracker := tracker, trace := trace } key minTime =
      (.notFound, { db := none, tracker := tracker, trace := trace }) ∧
    readNode E bin { db := none, tracker := tracker, trace := trace } key minTime =
      (.notFound, { db := none, tracker := tracker, trace := trace }) ∧
    readString E bin { db := none, tracker := tracker, trace := trace } key minTime =
      (.notFound, { db := none, tracker := tracker, trace := trace }) ∧
    getRecordStatus E bin { db := none, tracker := tracker, trace := trace } key minTime =
      .notFound ∧
    write E bin { db := none, tracker := tracker, trace := trace } now commitOk r key object cfg =
      (false, { db := none, tracker := tracker, trace := trace }) ∧
    remove E bin { db := none, tracker := tracker, trace := trace } commitOk key =
      (false, { db := none, tracker := tracker, trace := trace }) ∧
    touch E bin { db := none, tracker := tracker, trace := trace } now commitOk key =
      (false, { db := none, tracker := tracker, trace := trace }) ∧
    purge bin { db := none, tracker := tracker, trace := trace } commitOk =
      (false, { db := none, tracker := tracker, trace := trace }) ∧
    purgeOldest bin { db := none, tracker := tracker, trace := trace } r maxnum =
      (false, { db := none, tracker := tracker, trace := trace }) ∧
    compact ({ db := none, tracker := tracker, trace := trace } : State Policy) =
      (false, { db := none, tracker := tracker, trace := trace }) ∧
    writeMetadata E bin { db := none, tracker := tracker, trace := trace } commitOk cfg =
      (false, { db := none, tracker := tracker, trace := trace }) ∧
    getStorageSize E bin { db := none, tracker := tracker, trace := trace } = 0 ∧
    readMetadata E bin { db := none, tracker := tracker, trace := trace } = E.cfgEmpty :=
  ⟨rfl, rfl, rfl, rfl, rfl, rfl, rfl, rfl, rfl, rfl, rfl, rfl, rfl, rfl, rfl⟩

end Unavailable

/-! ## Eviction and the time index on concrete stores -/

section Eviction

open Sample

/-- C4 at a store of two bins: key `"k"` of bin `"a"` was written at time 1 and
key `"k"` of bin `"b"` at time 2. `purgeOldest(1)` called on bin `"b"` returns
true, visits the time-index entry of the older record of bin `"a"`, and deletes
the data and metadata record of bin `"b"`: the oldest record keeps its data and
metadata and is still read, the newest one is gone. With key `"j"` in bin `"b"`
the same call deletes no data record at all. -/
theorem purgeOldest_resolves_in_calling_bin :
    sameKeyTwoBins.db =
      some [(dataKey binA [107], [3, 1]),
            (dataKey binB [107], [3, 2]),
            (metaKey binA [107], toJSON [(TIME_FIELD, asISO8601 1)]),
            (metaKey binB [107], toJSON [(TIME_FIELD, asISO8601 2)]),
            (timeKey env binA 1 [107], [107]),
            (timeKey env binB 2 [107], [107])] ∧
    (purgeOldest binB sameKeyTwoBins allOk 1).1 = true ∧
    (purgeOldest binB sameKeyTwoBins allOk 1).2.db =
      some [(dataKey binA [107], [3, 1]),
            (metaKey binA [107], toJSON [(TIME_FIELD, asISO8601 1)]),
            (timeKey env binB 2 [107], [107])] ∧
    (read env binA (purgeOldest binB sameKeyTwoBins allOk 1).2 [107] 0 decodeAny).1 =
      .ok (.text [1]) [(TIME_FIELD, asISO8601 1)] ∧
    (read env binB (purgeOldest binB sameKeyTwoBins allOk 1).2 [107] 0 decodeAny).1 =
      .notFound ∧
    (purgeOldest binB twoBins allOk 1).1 = true ∧
    (purgeOldest binB twoBins allOk 1).2.db =
      some [(dataKey binA [107], [3, 1]),
            (dataKey binB [106], [3, 2]),
            (metaKey binA [107], toJSON [(TIME_FIELD, asISO8601 1)]),
            (metaKey binB [106], toJSON [(TIME_FIELD, asISO8601 2)]),
            (timeKey env binB 2 [106], [106])] := by
  decide

/-- C5 at a key written twice: after key `"k"` is written at time 1 and again at
time 2, `remove` returns true, `read` and `getRecordStatus` are not found, and
the store still holds the time-index entry of time 1 for the key, which the
scan of `purgeOldest` visits. -/
theorem remove_leaves_stale_time_entry :
    (remove env binA overwritten true [107]).1 = true ∧
    (read env binA (remove env binA overwritten true [107]).2 [107] 0 decodeAny).1 = .notFound ∧
    getRecordStatus env binA (remove env binA overwritten true [107]).2 [107] 0 = .notFound ∧
    (remove env binA overwritten true [107]).2.db = some [(timeKey env binA 1 [107], [107])] ∧
    purgeOldestLoop binA timeEndGlobal 1 allOk.iterOk
        (Store.seek [(timeKey env binA 1 [107], [107])] timeBeginGlobal) 0 [] =
      [.delete (dataKey binA [107]), .delete (metaKey binA [107]),
       .delete (timeKey env binA 1 [107])] := by
  decide

/-- C7 at a key written twice: after the first `write` of key `"k"` there is one
time-index entry for it; after the second `write`, at time 2, the metadata
record carries time 2 and the store holds two time-index entries for the key,
those of time 1 and of time 2. `touch` at time 2 leaves one, that of time 2. -/
theorem overwrite_keeps_old_time_entry :
    timeEntries binA [107] ((wrote binA (empty noLimit) 1 [107] [1]).db.getD []) =
      [(timeKey env binA 1 [107], [107])] ∧
    overwritten.db =
      some [(dataKey binA [107], [3, 2]),
            (metaKey binA [107], toJSON [(TIME_FIELD, asISO8601 2)]),
            (timeKey env binA 1 [107], [107]),
            (timeKey env binA 2 [107], [107])] ∧
    timeEntries binA [107] (overwritten.db.getD []) =
      [(timeKey env binA 1 [107], [107]), (timeKey env binA 2 [107], [107])] ∧
    (touch env binA (wrote binA (empty noLimit) 1 [107] [1]) 2 true [107]).1 = true ∧
    timeEntries binA [107]
        ((touch env binA (wrote binA (empty noLimit) 1 [107] [1]) 2 true [107]).2.db.getD []) =
      [(timeKey env binA 2 [107], [107])] := by
  decide

end Eviction

section Pairing

variable {Obj Config DateTime Policy : Type}

theorem paired_nil : Paired [] := by
  intro bin key
  simp [Store.get]

theorem dataKey_eq_iff_metaKey_eq (b1 b2 : CacheBin) (k1 k2 : Str) :
    dataKey b1 k1 = dataKey b2 k2 ↔ metaKey b1 k1 = metaKey b2 k2 := by
  simp [dataKey_cons, metaKey_cons]

/-- The batch of `write` keeps the data/metadata pairing. -/
theorem paired_writeBatch (E : Env Obj Config DateTime Policy) (bin : CacheBin) (db : Store)
    (now : DateTime) (key data : Str) (cfg : Config) (h : Paired db) :
    Paired (db.applyBatch (writeBatch E bin now key data cfg)) := by
  intro b k
  have h1 : dataKey b k ≠ metaKey bin key := fun e => metaKey_ne_dataKey bin b key k e.symm
  have h2 : dataKey b k ≠ timeKey E bin now key :=
    fun e => timeKey_ne_dataKey E bin b now key k e.symm
  have h3 : metaKey b k ≠ timeKey E bin now key :=
    fun e => timeKey_ne_metaKey E bin b now key k e.symm
  have h4 : metaKey b k ≠ dataKey bin key := metaKey_ne_dataKey b bin k key
  simp only [Store.applyBatch, writeBatch, List.foldl, Store.applyOp, Store.get_put, if_neg h1,
    if_neg h2, if_neg h3, if_neg h4]
  by_cases hk : dataKey b k = dataKey bin key
  · have hk2 := (dataKey_eq_iff_metaKey_eq b bin k key).1 hk
    simp [hk, hk2]
  · have hk2 : ¬ metaKey b k = metaKey bin key :=
      fun e => hk ((dataKey_eq_iff_metaKey_eq b bin k key).2 e)
    simp only [if_neg hk, if_neg hk2]
    exact h b k

/-- C6 at a store with one record: after `write` the pairing holds; `purge`
returns true and deletes the data record alone, so a metadata record is left
without its data record and the pairing no longer holds. -/
theorem purge_breaks_pairing :
    Paired ((Sample.wrote Sample.binA (Sample.empty Sample.noLimit) 1 [107] [1]).db.getD []) ∧
    (purge Sample.binA (Sample.wrote Sample.binA (Sample.empty Sample.noLimit) 1 [107] [1])
      true).1 = true ∧
    (purge Sample.binA (Sample.wrote Sample.binA (Sample.empty Sample.noLimit) 1 [107] [1])
      true).2.db =
      some [(metaKey Sample.binA [107], Sample.toJSON [(TIME_FIELD, Sample.asISO8601 1)]),
            (timeKey Sample.env Sample.binA 1 [107], [107])] ∧
    ¬ Paired ((purge Sample.binA
      (Sample.wrote Sample.binA (Sample.empty Sample.noLimit) 1 [107] [1]) true).2.db.getD []) := by
  refine ⟨?_, by decide, by decide, ?_⟩
  · have h := paired_writeBatch Sample.env Sample.binA [] 1 [107] [3, 1] [] paired_nil
    have e : (Sample.wrote Sample.binA (Sample.empty Sample.noLimit) 1 [107] [1]).db.getD [] =
        Store.applyBatch [] (writeBatch Sample.env Sample.binA 1 [107] [3, 1] []) := by
      decide
    rw [e]
    exact h
  · intro h
    have h1 := h Sample.binA [107]
    revert h1
    decide

end Pairing

section WritingWitness

/-- A use of `write_failure_atomic`: a batch the store rejects leaves the state
as it was, and an accepted one counts one write. -/
theorem write_failure_atomic_witness :
    (write Sample.env Sample.binA (Sample.empty Sample.noLimit) 5 false Sample.allOk [107]
        (some (.text [1, 2])) []).2 = Sample.empty Sample.noLimit ∧
    (write Sample.env Sample.binA (Sample.empty Sample.noLimit) 5 true Sample.allOk [107]
        (some (.text [1, 2])) []).2.tracker.writes = 0 + 1 :=
  ⟨(write_failure_atomic Sample.env Sample.binA (Sample.empty Sample.noLimit) 5 false
      Sample.allOk [107] (some (.text [1, 2])) []).2.1 (by decide),
   ((write_failure_atomic Sample.env Sample.binA (Sample.empty Sample.noLimit) 5 true
      Sample.allOk [107] (some (.text [1, 2])) []).2.2 (by decide)).1⟩

end WritingWitness

/-! ## The bytewise order -/

theorem strLt_irrefl (a : Str) : strLt a a = false := by
  induction a with
  | nil => rfl
  | cons x xs ih => simp [strLt, ih]

theorem strLt_nil_right (a : Str) : strLt a [] = false := by
  cases a <;> rfl

theorem strLt_trans {a b c : Str} (h1 : strLt a b = true) (h2 : strLt b c = true) :
    strLt a c = true := by
  induction a generalizing b c with
  | nil =>
    cases c with
    | nil => simp [strLt_nil_right] at h2
    | cons z zs => rfl
  | cons x xs ih =>
    cases b with
    | nil => simp [strLt] at h1
    | cons y ys =>
      cases c with
      | nil => simp [strLt] at h2
      | cons z zs =>
        simp only [strLt] at h1 h2 ⊢
        by_cases hxy : x < y
        · by_cases hyz : y < z
          · simp [lt_trans hxy hyz]
          · simp only [hyz, if_false] at h2
            by_cases hzy : z < y
            · simp [hzy] at h2
            · have : y = z := le_antisymm (not_lt.1 hzy) (not_lt.1 hyz)
              subst this
              simp [hxy]
        · simp only [hxy, if_false] at h1
          by_cases hyx : y < x
          · simp [hyx] at h1
          · have : x = y := le_antisymm (not_lt.1 hyx) (not_lt.1 hxy)
            subst this
            simp only [hyx, if_false] at h1
            by_cases hxz : x < z
            · simp [hxz]
            · simp only [hxz, if_false] at h2 ⊢
              by_cases hzx : z < x
              · simp [hzx] at h2
              · simp only [hzx, if_false] at h2 ⊢
                exact ih h1 h2

theorem strLt_asymm {a b : Str} (h : strLt a b = true) : strLt b a = false := by
  cases hb : strLt b a with
  | false => rfl
  | true =>
    have := strLt_trans h hb
    rw [strLt_irrefl] at this
    exact absurd this (by decide)

theorem strLt_total {a b : Str} (h1 : strLt a b = false) (h2 : strLt b a = false) : a = b := by
  induction a generalizing b with
  | nil =>
    cases b with
    | nil => rfl
    | cons y ys => simp [strLt] at h1
  | cons x xs ih =>
    cases b with
    | nil => simp [strLt] at h2
    | cons y ys =>
      simp only [strLt] at h1 h2
      by_cases hxy : x < y
      · simp [hxy] at h1
      · by_cases hyx : y < x
        · simp [hyx] at h2
        · have : x = y := le_antisymm (not_lt.1 hyx) (not_lt.1 hxy)
          subst this
          simp only [hxy, if_false] at h1 h2
          rw [ih h1 h2]

theorem strLt_append (p a b : Str) : strLt (p ++ a) (p ++ b) = strLt a b := by
  induction p with
  | nil => rfl
  | cons x xs ih => simp [strLt, ih]

theorem byte_lt_255 (c : Byte) : c < 255 ↔ c ≠ 255 := by
  constructor
  · intro h e
    subst e
    exact absurd h (by decide)
  · intro h
    rcases lt_or_ge c 255 with h1 | h1
    · exact h1
    · exact absurd (le_antisymm (Fin.le_last c) h1) h

/-- The keys from a prefix up to the prefix followed by the byte 0xFF are the
prefix followed by a rest that does not begin with 0xFF. -/
theorem inRange_prefix_iff (p k : Str) :
    InRange k p (p ++ [255]) ↔ ∃ rest, k = p ++ rest ∧ rest.head? ≠ some 255 := by
  unfold InRange
  induction p generalizing k with
  | nil =>
    cases k with
    | nil => simp [strLt]
    | cons c cs =>
      by_cases h : c < 255
      · have h2 := (byte_lt_255 c).1 h
        simp [strLt, h, h2]
      · have h2 : c = 255 := by
          by_contra hne
          exact h ((byte_lt_255 c).2 hne)
        subst h2
        simp [strLt, strLt_nil_right]
  | cons a p ih =>
    cases k with
    | nil => simp [strLt]
    | cons c cs =>
      simp only [strLt, List.cons_append]
      by_cases hca : c < a
      · have : c ≠ a := ne_of_lt hca
        simp [hca, this]
      · by_cases hac : a < c
        · have : c ≠ a := (ne_of_lt hac).symm
          simp [hca, hac, this]
        · have : c = a := le_antisymm (not_lt.1 hac) (not_lt.1 hca)
          subst this
          simp only [hca, if_false, List.cons.injEq, true_and]
          exact ih cs

/-- Two strings without a separator that agree after a separator is appended
to each, with any rests, are equal, and so are the rests. -/
theorem split_at_sep {a b x y : Str} (ha : noSep a) (hb : noSep b)
    (h : a ++ 33 :: x = b ++ 33 :: y) : a = b ∧ x = y := by
  unfold noSep at ha hb
  induction a generalizing b with
  | nil =>
    cases b with
    | nil => simpa using h
    | cons c cs =>
      simp only [List.nil_append, List.cons_append, List.cons.injEq] at h
      exact absurd (h.1 ▸ List.mem_cons_self c cs) hb
  | cons c cs ih =>
    cases b with
    | nil =>
      simp only [List.nil_append, List.cons_append, List.cons.injEq] at h
      exact absurd (h.1 ▸ List.mem_cons_self c cs) ha
    | cons d ds =>
      simp only [List.cons_append, List.cons.injEq] at h
      have ha2 : (33 : Byte) ∉ cs := fun m => ha (List.mem_cons_of_mem c m)
      have hb2 : (33 : Byte) ∉ ds := fun m => hb (List.mem_cons_of_mem d m)
      obtain ⟨e1, e2⟩ := ih ha2 hb2 h.2
      exact ⟨by rw [h.1, e1], e2⟩

/-! ## Injectivity and ranges of the key codec -/

section Codec

variable {Obj Config DateTime Policy : Type}

theorem dataKey_inj {b1 b2 : CacheBin} {k1 k2 : Str} (h1 : noSep b1.id) (h2 : noSep b2.id)
    (h : dataKey b1 k1 = dataKey b2 k2) : b1.id = b2.id ∧ k1 = k2 := by
  rw [dataKey_cons, dataKey_cons] at h
  exact split_at_sep h1 h2 (List.cons.inj (List.cons.inj h).2).2

theorem metaKey_inj {b1 b2 : CacheBin} {k1 k2 : Str} (h1 : noSep b1.id) (h2 : noSep b2.id)
    (h : metaKey b1 k1 = metaKey b2 k2) : b1.id = b2.id ∧ k1 = k2 := by
  rw [metaKey_cons, metaKey_cons] at h
  exact split_at_sep h1 h2 (List.cons.inj (List.cons.inj h).2).2

/-- C19: for bin IDs without `!`, `dataKey`, `metaKey` and `binKey` determine the
bin ID and the record key, and so does `timeKey` when the time stamps are
rendered without `!`; and a data key, a metadata key, a bin-metadata key and a
time-index key are never equal to one another. -/
theorem key_codec_injective (E : Env Obj Config DateTime Policy) (b1 b2 : CacheBin)
    (k1 k2 : Str) (t1 t2 : DateTime) (h1 : noSep b1.id) (h2 : noSep b2.id) :
    (dataKey b1 k1 = dataKey b2 k2 → b1.id = b2.id ∧ k1 = k2) ∧
    (metaKey b1 k1 = metaKey b2 k2 → b1.id = b2.id ∧ k1 = k2) ∧
    (binKey b1 = binKey b2 → b1.id = b2.id) ∧
    (noSep (E.asISO8601 t1) → noSep (E.asISO8601 t2) →
      timeKey E b1 t1 k1 = timeKey E b2 t2 k2 →
        E.asISO8601 t1 = E.asISO8601 t2 ∧ b1.id = b2.id ∧ k1 = k2) ∧
    dataKey b1 k1 ≠ metaKey b2 k2 ∧ dataKey b1 k1 ≠ binKey b2 ∧
    dataKey b1 k1 ≠ timeKey E b2 t2 k2 ∧ metaKey b1 k1 ≠ binKey b2 ∧
    metaKey b1 k1 ≠ timeKey E b2 t2 k2 ∧ binKey b1 ≠ timeKey E b2 t2 k2 := by
  refine ⟨?_, ?_, ?_, ?_, ?_, ?_, ?_, ?_, ?_, ?_⟩
  · exact dataKey_inj h1 h2
  · exact metaKey_inj h1 h2
  · intro h
    rw [binKey_cons, binKey_cons] at h
    exact (List.cons.inj (List.cons.inj h).2).2
  · intro hs1 hs2 h
    rw [timeKey_cons, timeKey_cons] at h
    obtain ⟨e1, e2⟩ := split_at_sep hs1 hs2 (List.cons.inj (List.cons.inj h).2).2
    exact ⟨e1, split_at_sep h1 h2 e2⟩
  · exact fun h => metaKey_ne_dataKey b2 b1 k2 k1 h.symm
  · rw [dataKey_cons, binKey_cons]
    exact fun h => absurd (List.cons.inj h).1 (by decide)
  · exact fun h => timeKey_ne_dataKey E b2 b1 t2 k2 k1 h.symm
  · rw [metaKey_cons, binKey_cons]
    exact fun h => absurd (List.cons.inj h).1 (by decide)
  · exact fun h => timeKey_ne_metaKey E b2 b1 t2 k2 k1 h.symm
  · rw [binKey_cons, timeKey_cons]
    exact fun h => absurd (List.cons.inj h).1 (by decide)

/-- A use of `key_codec_injective`: the equal data keys of key `"k"` in two
bins named `"a"` of the sample instantiation. -/
theorem key_codec_injective_witness :
    Sample.binA.id = Sample.binLate.id ∧ ([107] : Str) = [107] :=
  (key_codec_injective Sample.env Sample.binA Sample.binLate [107] [107] 1 2
    (by decide) (by decide)).1 (by decide)

theorem dataBegin_eq (bin : CacheBin) : dataBegin bin = 100 :: 33 :: (bin.id ++ [33]) := by
  simp [dataBegin, SEP]

theorem metaBegin_eq (bin : CacheBin) : metaBegin bin = 109 :: 33 :: (bin.id ++ [33]) := by
  simp [metaBegin, SEP]

theorem dataKey_eq_begin (bin : CacheBin) (key : Str) : dataKey bin key = dataBegin bin ++ key := by
  simp [dataKey, dataBegin]

theorem metaKey_eq_begin (bin : CacheBin) (key : Str) : metaKey bin key = metaBegin bin ++ key := by
  simp [metaKey, metaBegin]

theorem inRange_data_iff (bin : CacheBin) (k : Str) :
    InRange k (dataBegin bin) (dataEnd bin) ↔
      ∃ key, key.head? ≠ some 255 ∧ k = dataKey bin key := by
  have h := inRange_prefix_iff (dataBegin bin) k
  have e : dataEnd bin = dataBegin bin ++ [255] := by simp [dataEnd, dataBegin]
  rw [e, h]
  constructor
  · rintro ⟨rest, h1, h2⟩
    exact ⟨rest, h2, by rw [h1, dataKey_eq_begin]⟩
  · rintro ⟨key, h1, h2⟩
    exact ⟨key, by rw [h2, dataKey_eq_begin], h1⟩

theorem inRange_meta_iff (bin : CacheBin) (k : Str) :
    InRange k (metaBegin bin) (metaEnd bin) ↔
      ∃ key, key.head? ≠ some 255 ∧ k = metaKey bin key := by
  have h := inRange_prefix_iff (metaBegin bin) k
  have e : metaEnd bin = metaBegin bin ++ [255] := by simp [metaEnd, metaBegin]
  rw [e, h]
  constructor
  · rintro ⟨rest, h1, h2⟩
    exact ⟨rest, h2, by rw [h1, metaKey_eq_begin]⟩
  · rintro ⟨key, h1, h2⟩
    exact ⟨key, by rw [h2, metaKey_eq_begin], h1⟩

/-- C13, as the code has it: for a bin ID without `!`, the keys in
`[dataBegin, dataEnd)` are the data keys of the bin whose record key does not
begin with the byte 0xFF, and likewise for the metadata range; no data key of
a bin with another ID (also without `!`) and no metadata, bin-metadata or
time-index key lies in the data range, and likewise for the metadata range. -/
theorem range_isolates_bin (E : Env Obj Config DateTime Policy) (bin other : CacheBin)
    (k key : Str) (t : DateTime) (h : noSep bin.id) :
    (InRange k (dataBegin bin) (dataEnd bin) ↔
      ∃ key, key.head? ≠ some 255 ∧ k = dataKey bin key) ∧
    (InRange k (metaBegin bin) (metaEnd bin) ↔
      ∃ key, key.head? ≠ some 255 ∧ k = metaKey bin key) ∧
    (noSep other.id → other.id ≠ bin.id →
      ¬ InRange (dataKey other key) (dataBegin bin) (dataEnd bin) ∧
      ¬ InRange (metaKey other key) (metaBegin bin) (metaEnd bin)) ∧
    ¬ InRange (metaKey other key) (dataBegin bin) (dataEnd bin) ∧
    ¬ InRange (binKey other) (dataBegin bin) (dataEnd bin) ∧
    ¬ InRange (timeKey E other t key) (dataBegin bin) (dataEnd bin) ∧
    ¬ InRange (dataKey other key) (metaBegin bin) (metaEnd bin) ∧
    ¬ InRange (binKey other) (metaBegin bin) (metaEnd bin) ∧
    ¬ InRange (timeKey E other t key) (metaBegin bin) (metaEnd bin) := by
  refine ⟨inRange_data_iff bin k, inRange_meta_iff bin k, ?_, ?_, ?_, ?_, ?_, ?_, ?_⟩
  · intro ho hne
    constructor
    · rw [inRange_data_iff]
      rintro ⟨key2, -, e⟩
      exact hne (dataKey_inj ho h e).1
    · rw [inRange_meta_iff]
      rintro ⟨key2, -, e⟩
      exact hne (metaKey_inj ho h e).1
  · rw [inRange_data_iff]
    rintro ⟨key2, -, e⟩
    exact metaKey_ne_dataKey other bin key key2 e
  · rw [inRange_data_iff]
    rintro ⟨key2, -, e⟩
    rw [binKey_cons, dataKey_cons] at e
    exact absurd (List.cons.inj e).1 (by decide)
  · rw [inRange_data_iff]
    rintro ⟨key2, -, e⟩
    exact timeKey_ne_dataKey E other bin t key key2 e
  · rw [inRange_meta_iff]
    rintro ⟨key2, -, e⟩
    exact metaKey_ne_dataKey bin other key2 key e.symm
  · rw [inRange_meta_iff]
    rintro ⟨key2, -, e⟩
    rw [binKey_cons, metaKey_cons] at e
    exact absurd (List.cons.inj e).1 (by decide)
  · rw [inRange_meta_iff]
    rintro ⟨key2, -, e⟩
    exact timeKey_ne_metaKey E other bin t key key2 e

/-- A use of `range_isolates_bin`: the data key of key `"k"` of bin `"a"` lies
in the data range of bin `"a"`. -/
theorem range_isolates_bin_witness :
    InRange (dataKey Sample.binA [107]) (dataBegin Sample.binA) (dataEnd Sample.binA) :=
  (range_isolates_bin Sample.env Sample.binA Sample.binB (dataKey Sample.binA [107]) [107] 1
    (by decide)).1.2 ⟨[107], by decide, rfl⟩

/-- C13, as stated, fails: bin `"a"` has no `!` in its ID, and the data key and
the metadata key of its record key `"\xff"` lie outside `[dataBegin, dataEnd)`
and `[metaBegin, metaEnd)`: they are equal to the end of the range. -/
theorem range_misses_key_0xff :
    noSep Sample.binA.id ∧
    ¬ InRange (dataKey Sample.binA [255]) (dataBegin Sample.binA) (dataEnd Sample.binA) ∧
    dataKey Sample.binA [255] = dataEnd Sample.binA ∧
    ¬ InRange (metaKey Sample.binA [255]) (metaBegin Sample.binA) (metaEnd Sample.binA) ∧
    ¬ InRange (dataKey Sample.binA [255, 1]) (dataBegin Sample.binA) (dataEnd Sample.binA) := by
  decide

end Codec

/-! ## Sorted stores and the iterator -/

theorem Store.Sorted.tail {a : Str × Str} {l : Store} (h : Store.Sorted (a :: l)) :
    Store.Sorted l := by
  cases l with
  | nil => trivial
  | cons b rest => exact h.2

theorem Store.Sorted.head_lt {a : Str × Str} {l : Store} (h : Store.Sorted (a :: l)) :
    ∀ x ∈ l, strLt a.1 x.1 = true := by
  induction l generalizing a with
  | nil => intro x hx; cases hx
  | cons b rest ih =>
    intro x hx
    rcases List.mem_cons.1 hx with e | hx2
    · rw [e]; exact h.1
    · exact strLt_trans h.1 (ih h.2 x hx2)

theorem Store.mem_seek {db : Store} {b : Str} {x : Str × Str} (h : Store.Sorted db) :
    x ∈ db.seek b ↔ x ∈ db ∧ strLt x.1 b = false := by
  induction db with
  | nil => simp [Store.seek]
  | cons a rest ih =>
    have ih2 := ih h.tail
    unfold Store.seek at ih2 ⊢
    by_cases ha : strLt a.1 b = true
    · rw [List.dropWhile_cons_of_pos (by simpa using ha), ih2]
      constructor
      · rintro ⟨h1, h2⟩
        exact ⟨List.mem_cons_of_mem _ h1, h2⟩
      · rintro ⟨h1, h2⟩
        rcases List.mem_cons.1 h1 with e | h3
        · rw [e, ha] at h2
          exact absurd h2 (by decide)
        · exact ⟨h3, h2⟩
    · rw [List.dropWhile_cons_of_neg (by simpa using ha)]
      constructor
      · intro h1
        refine ⟨h1, ?_⟩
        rcases List.mem_cons.1 h1 with e | h3
        · rw [e]; simpa using ha
        · cases hx : strLt x.1 b with
          | false => rfl
          | true => exact absurd (strLt_trans (h.head_lt x h3) hx) ha
      · exact fun h1 => h1.1

theorem Store.sorted_seek {db : Store} (b : Str) (h : Store.Sorted db) :
    Store.Sorted (db.seek b) := by
  induction db with
  | nil => trivial
  | cons a rest ih =>
    unfold Store.seek at ih ⊢
    by_cases ha : strLt a.1 b = true
    · rw [List.dropWhile_cons_of_pos (by simpa using ha)]
      exact ih h.tail
    · rw [List.dropWhile_cons_of_neg (by simpa using ha)]
      exact h

theorem before_of_sorted {l : Store} {x y : Str × Str} (h : Store.Sorted l) (hx : x ∈ l)
    (hy : y ∈ l) (hlt : strLt x.1 y.1 = true) : Before x y l := by
  induction l with
  | nil => cases hx
  | cons a rest ih =>
    rcases List.mem_cons.1 hx with ex | hx2
    · subst ex
      rcases List.mem_cons.1 hy with ey | hy2
      · subst ey
        rw [strLt_irrefl] at hlt
        exact absurd hlt (by decide)
      · obtain ⟨mid, post, e⟩ := List.append_of_mem hy2
        exact ⟨[], mid, post, by rw [e]; rfl⟩
    · rcases List.mem_cons.1 hy with ey | hy2
      · subst ey
        have h1 := h.head_lt x hx2
        rw [strLt_asymm h1] at hlt
        exact absurd hlt (by decide)
      · obtain ⟨pre, mid, post, e⟩ := ih h.tail hx2 hy2
        exact ⟨a :: pre, mid, post, by rw [e]; rfl⟩

theorem strLt_append_of_lt {s1 s2 : Str} (x y : Str) (hlen : s1.length = s2.length)
    (hlt : strLt s1 s2 = true) : strLt (s1 ++ x) (s2 ++ y) = true := by
  induction s1 generalizing s2 with
  | nil =>
    cases s2 with
    | nil => simp [strLt] at hlt
    | cons b bs => simp at hlen
  | cons a as ih =>
    cases s2 with
    | nil => simp at hlen
    | cons b bs =>
      simp only [strLt, List.cons_append] at hlt ⊢
      by_cases hab : a < b
      · simp [hab]
      · simp only [hab, if_false] at hlt ⊢
        by_cases hba : b < a
        · simp [hba] at hlt
        · simp only [hba, if_false] at hlt ⊢
          exact ih (by simpa using hlen) hlt

theorem isoByte_ne_255 {c : Byte} (h : isoByte c = true) : c ≠ 255 := by
  intro e
  subst e
  exact absurd h (by decide)

section TimeOrder

variable {Obj Config DateTime Policy : Type}

theorem inRange_timeKey (E : Env Obj Config DateTime Policy) (bin : CacheBin) (t : DateTime)
    (key : Str) (h : IsoText (E.asISO8601 t)) :
    InRange (timeKey E bin t key) timeBeginGlobal timeEndGlobal := by
  have e : timeEndGlobal = timeBeginGlobal ++ [255] := rfl
  rw [e, inRange_prefix_iff]
  refine ⟨E.asISO8601 t ++ 33 :: (bin.id ++ 33 :: key), by simp [timeKey, timeBeginGlobal, SEP], ?_⟩
  cases hs : E.asISO8601 t with
  | nil => simp
  | cons c cs =>
    have hc : isoByte c = true :=
      List.all_eq_true.1 h c (by rw [hs]; exact List.mem_cons_self c cs)
    simpa using isoByte_ne_255 hc

/-- C15: when the renderings of two time stamps are ISO-8601 text of the same
width and the first is bytewise smaller, the time-index key of the first is
smaller than that of the second, for any bins and record keys; both keys lie in
`[timeBeginGlobal, timeEndGlobal)`; and in a sorted store that holds both, the
iterator of `purgeOldest` reaches the first before the second. -/
theorem timeKey_chronological (E : Env Obj Config DateTime Policy) (b1 b2 : CacheBin)
    (t1 t2 : DateTime) (k1 k2 : Str)
    (hlen : (E.asISO8601 t1).length = (E.asISO8601 t2).length)
    (h1 : IsoText (E.asISO8601 t1)) (h2 : IsoText (E.asISO8601 t2))
    (hlt : strLt (E.asISO8601 t1) (E.asISO8601 t2) = true) :
    strLt (timeKey E b1 t1 k1) (timeKey E b2 t2 k2) = true ∧
    InRange (timeKey E b1 t1 k1) timeBeginGlobal timeEndGlobal ∧
    InRange (timeKey E b2 t2 k2) timeBeginGlobal timeEndGlobal ∧
    ∀ (db : Store) (v1 v2 : Str), Store.Sorted db →
      (timeKey E b1 t1 k1, v1) ∈ db → (timeKey E b2 t2 k2, v2) ∈ db →
      Before (timeKey E b1 t1 k1, v1) (timeKey E b2 t2 k2, v2) (db.seek timeBeginGlobal) := by
  have hkey : strLt (timeKey E b1 t1 k1) (timeKey E b2 t2 k2) = true := by
    rw [timeKey_cons, timeKey_cons]
    have := strLt_append_of_lt (33 :: (b1.id ++ 33 :: k1)) (33 :: (b2.id ++ 33 :: k2)) hlen hlt
    simpa [strLt] using this
  have hr1 := inRange_timeKey E b1 t1 k1 h1
  have hr2 := inRange_timeKey E b2 t2 k2 h2
  refine ⟨hkey, hr1, hr2, ?_⟩
  intro db v1 v2 hs hm1 hm2
  exact before_of_sorted (Store.sorted_seek _ hs) ((Store.mem_seek hs).2 ⟨hm1, hr1.1⟩)
    ((Store.mem_seek hs).2 ⟨hm2, hr2.1⟩) hkey

/-- A use of `timeKey_chronological`: times 1 and 2 of the sample
instantiation, in bins `"b"` and `"a"`. -/
theorem timeKey_chronological_witness :
    strLt (timeKey Sample.env Sample.binB 1 [107]) (timeKey Sample.env Sample.binA 2 [106])
      = true :=
  (timeKey_chronological Sample.env Sample.binB Sample.binA 1 2 [107] [106] (by decide)
    (by decide) (by decide) (by decide)).1

end TimeOrder

/-! ## Effects of write, touch, compact and the post-write hook -/

section Effects

variable {Obj Config DateTime Policy : Type}

/-- C20: `compact` returns false on every call, with and without a store; the
store and the tracker are as before, and the compaction request is recorded
exactly when the store is available. -/
theorem compact_returns_false (s : State Policy) :
    (compact s).1 = false ∧ (compact s).2.db = s.db ∧ (compact s).2.tracker = s.tracker ∧
    (compact s).2.trace = if s.db.isSome then s.trace ++ [.compactRange] else s.trace := by
  rcases s with ⟨db, tracker, trace⟩
  cases db <;> simp [compact]

theorem purgeOldest_db (bin : CacheBin) (s : State Policy) (r : Resp) (maxnum : Nat) :
    (purgeOldest bin s r maxnum).2.db =
      match s.db with
      | none => none
      | some db =>
        if r.commitOk then
          some (db.applyBatch
            (purgeOldestLoop bin timeEndGlobal maxnum r.iterOk (db.seek timeBeginGlobal) 0 []))
        else some db := by
  rcases s with ⟨db, tracker, trace⟩
  cases db with
  | none => rfl
  | some db =>
    simp only [purgeOldest]
    cases r.commitOk <;> rfl

/-- C16: the post-write hook leaves store and tracker alone when no size limit
is configured; over the limit it calls `purgeOldest` exactly when it is time to
purge, with the 32-bit product of 3 and `numToPurge`, and never measures the
size; under the limit it measures the size exactly when it is time to check,
and never purges. -/
theorem postWrite_policy (E : Env Obj Config DateTime Policy) (bin : CacheBin)
    (s : State Policy) (r : Resp) :
    (E.hasSizeLimit s.tracker = false →
      postWrite E bin s r = { s with trace := s.trace ++ [.postWrite] }) ∧
    (E.hasSizeLimit s.tracker = true → E.isOverLimit s.tracker = true →
      (postWrite E bin s r).trace =
        s.trace ++ Event.postWrite ::
          (if (E.isTimeToPurge s.tracker).1 then
            [Event.purgeOldest
              (3 * E.numToPurge { s.tracker with policy := (E.isTimeToPurge s.tracker).2 }
                % 2 ^ 32)]
          else []) ∧
      (postWrite E bin s r).tracker =
        { s.tracker with policy := (E.isTimeToPurge s.tracker).2 } ∧
      (postWrite E bin s r).db =
        if (E.isTimeToPurge s.tracker).1 then
          (purgeOldest bin s r
            (3 * E.numToPurge { s.tracker with policy := (E.isTimeToPurge s.tracker).2 }
              % 2 ^ 32)).2.db
        else s.db) ∧
    (E.hasSizeLimit s.tracker = true → E.isOverLimit s.tracker = false →
      (postWrite E bin s r).trace =
        s.trace ++ Event.postWrite ::
          (if (E.isTimeToCheckSize s.tracker).1 then [Event.calcSize] else []) ∧
      (postWrite E bin s r).tracker =
        (if (E.isTimeToCheckSize s.tracker).1 then
          { s.tracker with
            policy := E.calcSize
              { s.tracker with policy := (E.isTimeToCheckSize s.tracker).2 } s.db }
        else { s.tracker with policy := (E.isTimeToCheckSize s.tracker).2 }) ∧
      (postWrite E bin s r).db = s.db) := by
  have harg : ∀ n : Nat, n % 2 ^ 32 * 3 % 2 ^ 32 = 3 * n % 2 ^ 32 := by
    intro n
    omega
  refine ⟨?_, ?_, ?_⟩
  · intro h
    unfold postWrite
    simp [h]
  · intro h1 h2
    unfold postWrite
    simp only [h1, h2, if_true]
    by_cases h3 : (E.isTimeToPurge s.tracker).1 = true
    · simp only [h3, if_true, purgeOldest_trace, purgeOldest_tracker, harg]
      refine ⟨by simp, trivial, ?_⟩
      rw [purgeOldest_db, purgeOldest_db]
    · simp [h3]
  · intro h1 h2
    unfold postWrite
    simp only [h1, h2, if_true]
    by_cases h3 : (E.isTimeToCheckSize s.tracker).1 = true
    · simp [h3]
    · simp [h3]

/-- A use of `postWrite_policy`: the sample tracker over its budget calls
`purgeOldest(3)`, and the one without a budget changes nothing. -/
theorem postWrite_policy_witness :
    (postWrite Sample.env Sample.binA (Sample.empty Sample.overLimit) Sample.allOk).trace =
      [] ++ Event.postWrite ::
        (if (Sample.env.isTimeToPurge (Sample.empty Sample.overLimit).tracker).1 then
          [Event.purgeOldest
            (3 * Sample.env.numToPurge
              { (Sample.empty Sample.overLimit).tracker with
                policy := (Sample.env.isTimeToPurge (Sample.empty Sample.overLimit).tracker).2 }
              % 2 ^ 32)]
        else []) ∧
    postWrite Sample.env Sample.binA (Sample.empty Sample.noLimit) Sample.allOk =
      { Sample.empty Sample.noLimit with trace := [] ++ [.postWrite] } :=
  ⟨((postWrite_policy Sample.env Sample.binA (Sample.empty Sample.overLimit) Sample.allOk).2.1
      (by decide) (by decide)).1,
   (postWrite_policy Sample.env Sample.binA (Sample.empty Sample.noLimit) Sample.allOk).1
      (by decide)⟩

end Effects

section WriteTouch

variable {Obj Config DateTime Policy : Type}

/-- What `Get` finds after the batch of `write`. -/
theorem get_after_writeBatch (E : Env Obj Config DateTime Policy) (bin : CacheBin) (db : Store)
    (now : DateTime) (key data : Str) (cfg : Config) (k : Str) :
    (db.applyBatch (writeBatch E bin now key data cfg)).get k =
      if k = metaKey bin key then
        some (encodeMeta E (E.cfgSet cfg TIME_FIELD (E.asISO8601 now)))
      else if k = timeKey E bin now key then some key
      else if k = dataKey bin key then some data
      else db.get k := by
  simp only [Store.applyBatch, writeBatch, List.foldl, Store.applyOp, Store.get_put]

/-- C17: when `write` returns true and the post-write hook is not due to
purge, the store afterwards holds the encoded object under `dataKey(key)`, the
key under `timeKey(now, key)` and the encoding of the metadata with the time
field set to `now` under `metaKey(key)`; every other key reads as before; and a
time-index entry of the key from an earlier write is still there. -/
theorem write_effect (E : Env Obj Config DateTime Policy) (bin : CacheBin)
    (s : State Policy) (now : DateTime) (commitOk : Bool) (pr : Resp) (key : Str) (obj : Obj)
    (cfg : Config)
    (hw : (write E bin s now commitOk pr key (some obj) cfg).1 = true)
    (hpurge : purgeDue E { s.tracker with writes := s.tracker.writes + 1 } = false) :
    ∃ db data db', s.db = some db ∧ encodeObject E obj = some data ∧
      (write E bin s now commitOk pr key (some obj) cfg).2.db = some db' ∧
      db'.get (dataKey bin key) = some data ∧
      db'.get (timeKey E bin now key) = some key ∧
      db'.get (metaKey bin key) =
        some (encodeMeta E (E.cfgSet cfg TIME_FIELD (E.asISO8601 now))) ∧
      (∀ k, k ≠ dataKey bin key → k ≠ timeKey E bin now key → k ≠ metaKey bin key →
        db'.get k = db.get k) ∧
      (∀ t0, db.get (timeKey E bin t0 key) = some key →
        db'.get (timeKey E bin t0 key) = some key) := by
  unfold write at hw ⊢
  cases hdb : s.db with
  | none => simp [hdb] at hw
  | some db =>
    simp only [hdb] at hw ⊢
    cases henc : encodeObject E obj with
    | none => simp [henc] at hw
    | some data =>
      simp only [henc] at hw ⊢
      cases commitOk with
      | false => simp at hw
      | true =>
        simp only [if_true]
        refine ⟨db, data, db.applyBatch (writeBatch E bin now key data cfg), rfl, rfl, ?_, ?_, ?_,
          ?_, ?_, ?_⟩
        · rw [postWrite_db E bin _ pr hpurge]
        · exact (get_writeBatch E bin db now key data cfg).1
        · rw [get_after_writeBatch, if_neg (timeKey_ne_metaKey E bin bin now key key), if_pos rfl]
        · exact (get_writeBatch E bin db now key data cfg).2
        · intro k h1 h2 h3
          rw [get_after_writeBatch, if_neg h3, if_neg h2, if_neg h1]
        · intro t0 h0
          rw [get_after_writeBatch, if_neg (timeKey_ne_metaKey E bin bin t0 key key)]
          by_cases e : timeKey E bin t0 key = timeKey E bin now key
          · rw [if_pos e]
          · rw [if_neg e, if_neg (timeKey_ne_dataKey E bin bin t0 key key), h0]

/-- A use of `write_effect`: key `"k"` of bin `"a"`, written at time 1, is
written again at time 2. -/
theorem write_effect_witness :
    ∃ db data db', (Sample.wrote Sample.binA (Sample.empty Sample.noLimit) 1 [107] [1]).db
        = some db ∧
      encodeObject Sample.env (.text [2]) = some data ∧
      (write Sample.env Sample.binA
        (Sample.wrote Sample.binA (Sample.empty Sample.noLimit) 1 [107] [1]) 2 true Sample.allOk
        [107] (some (.text [2])) []).2.db = some db' ∧
      db'.get (dataKey Sample.binA [107]) = some data ∧
      db'.get (timeKey Sample.env Sample.binA 2 [107]) = some [107] ∧
      db'.get (metaKey Sample.binA [107]) =
        some (encodeMeta Sample.env
          (Sample.env.cfgSet [] TIME_FIELD (Sample.env.asISO8601 2))) ∧
      (∀ k, k ≠ dataKey Sample.binA [107] → k ≠ timeKey Sample.env Sample.binA 2 [107] →
        k ≠ metaKey Sample.binA [107] → db'.get k = db.get k) ∧
      (∀ t0, db.get (timeKey Sample.env Sample.binA t0 [107]) = some [107] →
        db'.get (timeKey Sample.env Sample.binA t0 [107]) = some [107]) :=
  write_effect Sample.env Sample.binA
    (Sample.wrote Sample.binA (Sample.empty Sample.noLimit) 1 [107] [1]) 2 true Sample.allOk
    [107] (.text [2]) [] (by decide) (by decide)

/-- What `Get` finds after the batch of `touch`. -/
theorem get_after_touchBatch (db : Store) (mk mv told tnew key k : Str) :
    (db.applyBatch [.put mk mv, .delete told, .put tnew key]).get k =
      if k = tnew then some key
      else if k = told then none
      else if k = mk then some mv
      else db.get k := by
  simp only [Store.applyBatch, List.foldl, Store.applyOp, Store.get_put, Store.get_delete]

/-- C18: `touch` returns false and changes nothing when the metadata record is
absent. When the record is present and the batch commits, the metadata record
is the old map with the time field set to the new time, the time-index entry of
the old time is gone unless it is the key of the new one, the entry of the new
time holds the key, and every other key, the data key among them, reads as
before; the tracker and the record of calls are as before. -/
theorem touch_effect (E : Env Obj Config DateTime Policy) (bin : CacheBin)
    (s : State Policy) (now : DateTime) (commitOk : Bool) (key : Str) :
    ((∀ db, s.db = some db → db.get (metaKey bin key) = none) →
      touch E bin s now commitOk key = (false, s)) ∧
    (∀ db metavalue, s.db = some db → db.get (metaKey bin key) = some metavalue →
      (touch E bin s now commitOk key).1 = true →
      ∃ db', (touch E bin s now commitOk key).2 = { s with db := some db' } ∧
        db'.get (metaKey bin key) =
          some (encodeMeta E
            (E.cfgSet (decodeMeta E metavalue E.cfgEmpty) TIME_FIELD (E.asISO8601 now))) ∧
        (timeKey E bin (recordTime E (decodeMeta E metavalue E.cfgEmpty)) key ≠
            timeKey E bin (E.parseDateTime (E.asISO8601 now)) key →
          db'.get (timeKey E bin (recordTime E (decodeMeta E metavalue E.cfgEmpty)) key)
            = none) ∧
        db'.get (timeKey E bin (E.parseDateTime (E.asISO8601 now)) key) = some key ∧
        (∀ k, k ≠ metaKey bin key →
          k ≠ timeKey E bin (recordTime E (decodeMeta E metavalue E.cfgEmpty)) key →
          k ≠ timeKey E bin (E.parseDateTime (E.asISO8601 now)) key →
          db'.get k = db.get k) ∧
        db'.get (dataKey bin key) = db.get (dataKey bin key)) := by
  constructor
  · intro h
    unfold touch
    cases hdb : s.db with
    | none => rfl
    | some db => simp only [h db hdb]
  · intro db mv hdb hm ht
    unfold touch at ht ⊢
    simp only [hdb, hm] at ht ⊢
    cases commitOk with
    | false => simp at ht
    | true =>
      simp only [if_true]
      refine ⟨_, rfl, ?_, ?_, ?_, ?_, ?_⟩
      · rw [get_after_touchBatch,
          if_neg (fun e => timeKey_ne_metaKey E bin bin _ key key e.symm),
          if_neg (fun e => timeKey_ne_metaKey E bin bin _ key key e.symm), if_pos rfl]
      · intro hne
        rw [get_after_touchBatch, if_neg hne, if_pos rfl]
      · rw [get_after_touchBatch, if_pos rfl]
      · intro k h1 h2 h3
        rw [get_after_touchBatch, if_neg h3, if_neg h2, if_neg h1]
      · rw [get_after_touchBatch,
          if_neg (fun e => timeKey_ne_dataKey E bin bin _ key key e.symm),
          if_neg (fun e => timeKey_ne_dataKey E bin bin _ key key e.symm),
          if_neg (fun e => metaKey_ne_dataKey bin bin key key e.symm)]

/-- A use of `touch_effect`: `touch` of a key that is not in the store, and
`touch` at time 3 of key `"k"` written at time 1. -/
theorem touch_effect_witness :
    touch Sample.env Sample.binA (Sample.empty Sample.noLimit) 3 true [107] =
      (false, Sample.empty Sample.noLimit) ∧
    ∃ db', (touch Sample.env Sample.binA Sample.oneRecord 3 true [107]).2 =
        { Sample.oneRecord with db := some db' } ∧
      db'.get (timeKey Sample.env Sample.binA
        (Sample.env.parseDateTime (Sample.env.asISO8601 3)) [107]) = some [107] ∧
      db'.get (dataKey Sample.binA [107]) =
        (Sample.oneRecord.db.getD []).get (dataKey Sample.binA [107]) :=
  ⟨(touch_effect Sample.env Sample.binA (Sample.empty Sample.noLimit) 3 true [107]).1
      (by intro db h; cases h; rfl),
   match (touch_effect Sample.env Sample.binA Sample.oneRecord 3 true [107]).2
      (Sample.oneRecord.db.getD []) (Sample.toJSON [(TIME_FIELD, Sample.asISO8601 1)])
      (by decide) (by decide) (by decide) with
   | ⟨db', h1, _, _, h4, _, h6⟩ => ⟨db', h1, h4, h6⟩⟩

end WriteTouch

section Touching

variable {Obj Config DateTime Policy : Type}

/-- C11, as the code has it: for a stored record with time stamp `T0 >= 0`, whose
data record decodes to the object, and every `minTime` with `T0 < minTime <= T1`,
`read` is expired before the touch; after a `touch` that returns true at a
time `now` with time stamp `T1`, read back unchanged from the metadata it
wrote, and in a bin whose minimum valid time is not later than `T1`, the same
`read` returns the object and `getRecordStatus` is ok. -/
theorem touch_refreshes_validity (E : Env Obj Config DateTime Policy) (bin : CacheBin)
    (s : State Policy) (now : DateTime) (commitOk : Bool) (key : Str) (minTime : Int)
    (reader : Str → Option Obj) (db : Store) (metavalue data : Str) (obj : Obj) (T0 : Int)
    (hdb : s.db = some db) (hm : db.get (metaKey bin key) = some metavalue)
    (hd : db.get (dataKey bin key) = some data) (hdec : reader data = some obj)
    (hT0 : E.asTimeStamp (recordTime E (decodeMeta E metavalue E.cfgEmpty)) = T0)
    (hrt : E.asTimeStamp (recordTime E (decodeMeta E (encodeMeta E
        (E.cfgSet (decodeMeta E metavalue E.cfgEmpty) TIME_FIELD (E.asISO8601 now)))
        E.cfgEmpty)) = E.asTimeStamp now)
    (h0 : 0 ≤ T0) (hmin : T0 < minTime) (hmax : minTime ≤ E.asTimeStamp now)
    (hbin : bin.minValidTime ≤ E.asTimeStamp now)
    (ht : (touch E bin s now commitOk key).1 = true) :
    (read E bin s key minTime reader).1 = .expired ∧
    (∃ metadata,
      (read E bin (touch E bin s now commitOk key).2 key minTime reader).1 = .ok obj metadata) ∧
    getRecordStatus E bin (touch E bin s now commitOk key).2 key minTime = .ok := by
  have hle : minTime ≤ max minTime bin.minValidTime := le_max_left _ _
  have hmx : max minTime bin.minValidTime ≤ E.asTimeStamp now := max_le hmax hbin
  refine ⟨?_, ?_, ?_⟩
  · unfold read
    simp only [hdb, hm, hT0]
    rw [if_pos ⟨by omega, by omega⟩]
  · unfold touch at ht ⊢
    simp only [hdb, hm] at ht ⊢
    cases commitOk with
    | false => simp at ht
    | true =>
      simp only [if_true]
      unfold read
      simp only []
      rw [get_after_touchBatch,
        if_neg (fun e => timeKey_ne_metaKey E bin bin _ key key e.symm),
        if_neg (fun e => timeKey_ne_metaKey E bin bin _ key key e.symm), if_pos rfl]
      simp only [hrt]
      rw [if_neg (by omega), readData_fst, get_after_touchBatch,
        if_neg (fun e => timeKey_ne_dataKey E bin bin _ key key e.symm),
        if_neg (fun e => timeKey_ne_dataKey E bin bin _ key key e.symm),
        if_neg (fun e => metaKey_ne_dataKey bin bin key key e.symm), hd]
      simp only [hdec]
      exact ⟨_, rfl⟩
  · unfold touch at ht ⊢
    simp only [hdb, hm] at ht ⊢
    cases commitOk with
    | false => simp at ht
    | true =>
      simp only [if_true]
      unfold getRecordStatus
      simp only []
      rw [get_after_touchBatch,
        if_neg (fun e => timeKey_ne_metaKey E bin bin _ key key e.symm),
        if_neg (fun e => timeKey_ne_metaKey E bin bin _ key key e.symm), if_pos rfl]
      simp only [hrt]
      rw [if_neg (by omega)]

/-- A use of `touch_refreshes_validity`: a record written at time 1 and touched
at time 7, read with `minTime = 5`. -/
theorem touch_refreshes_validity_witness :
    (read Sample.env Sample.binA Sample.oneRecord [107] 5 Sample.decodeAny).1 = .expired ∧
    (∃ metadata,
      (read Sample.env Sample.binA
        (touch Sample.env Sample.binA Sample.oneRecord 7 true [107]).2 [107] 5
        Sample.decodeAny).1 = .ok (.text [1]) metadata) ∧
    getRecordStatus Sample.env Sample.binA
      (touch Sample.env Sample.binA Sample.oneRecord 7 true [107]).2 [107] 5 = .ok :=
  touch_refreshes_validity Sample.env Sample.binA Sample.oneRecord 7 true [107] 5
    Sample.decodeAny (Sample.oneRecord.db.getD [])
    (Sample.toJSON [(TIME_FIELD, Sample.asISO8601 1)]) [3, 1] (.text [1]) 1
    (by decide) (by decide) (by decide) (by decide) (by decide) (by decide) (by decide)
    (by decide) (by decide) (by decide) (by decide)

/-- C11, as stated, fails twice. In a bin whose minimum valid time (9) is later
than the time of the touch (7), a record written at time 1 and touched at time
7 is still expired for `minTime = 5`. And with a clock before the epoch (time
stamps -9 at the write and 10 at the touch) the record is read, not expired,
for `minTime = -5` before the touch. -/
theorem touch_refreshes_validity_fails :
    ((touch Sample.env Sample.binLate Sample.oneRecord 7 true [107]).1 = true ∧
      (read Sample.env Sample.binLate
        (touch Sample.env Sample.binLate Sample.oneRecord 7 true [107]).2 [107] 5
        Sample.decodeAny).1 = .expired ∧
      getRecordStatus Sample.env Sample.binLate
        (touch Sample.env Sample.binLate Sample.oneRecord 7 true [107]).2 [107] 5 = .expired) ∧
    (Sample.envBeforeEpoch.asTimeStamp 1 = -9 ∧ Sample.envBeforeEpoch.asTimeStamp 20 = 10 ∧
      (read Sample.envBeforeEpoch Sample.binA Sample.oneRecord [107] (-5) Sample.decodeAny).1 =
        .ok (.text [1]) [(TIME_FIELD, Sample.asISO8601 1)]) := by
  decide

end Touching

/-! ## Purging a bin -/

theorem Store.mem_of_get {db : Store} {k v : Str} (h : db.get k = some v) : (k, v) ∈ db := by
  induction db with
  | nil => simp [Store.get] at h
  | cons e rest ih =>
    obtain ⟨a, b⟩ := e
    simp only [Store.get] at h
    by_cases hk : a = k
    · simp only [hk, if_true, Option.some.injEq] at h
      rw [hk, h]
      exact List.mem_cons_self _ _
    · rw [if_neg hk] at h
      exact List.mem_cons_of_mem _ (ih h)

theorem Store.get_applyBatch_deletes (db : Store) (ks : List Str) (k : Str) :
    (db.applyBatch (ks.map Op.delete)).get k = if k ∈ ks then none else db.get k := by
  induction ks generalizing db with
  | nil => simp [Store.applyBatch]
  | cons a rest ih =>
    have e : Store.applyBatch db ((a :: rest).map Op.delete) =
        Store.applyBatch (db.delete a) (rest.map Op.delete) := rfl
    rw [e, ih, Store.get_delete]
    by_cases h1 : k ∈ rest
    · simp [h1]
    · by_cases h2 : k = a
      · simp [h2]
      · simp [h1, h2]

theorem Store.mem_takeWhile {l : Store} {last : Str} {x : Str × Str} (h : Store.Sorted l) :
    x ∈ l.takeWhile (fun e => strLt e.1 last) ↔ x ∈ l ∧ strLt x.1 last = true := by
  induction l with
  | nil => simp
  | cons a rest ih =>
    by_cases ha : strLt a.1 last = true
    · have ha2 : (fun e : Str × Str => strLt e.1 last) a = true := ha
      rw [List.takeWhile_cons_of_pos (p := fun e : Str × Str => strLt e.1 last) ha2,
        List.mem_cons, ih h.tail, List.mem_cons]
      constructor
      · rintro (e | ⟨h1, h2⟩)
        · exact ⟨Or.inl e, by rw [e]; exact ha⟩
        · exact ⟨Or.inr h1, h2⟩
      · rintro ⟨e | h1, h2⟩
        · exact Or.inl e
        · exact Or.inr ⟨h1, h2⟩
    · have ha2 : ¬ (fun e : Str × Str => strLt e.1 last) a = true := ha
      rw [List.takeWhile_cons_of_neg (p := fun e : Str × Str => strLt e.1 last) ha2]
      constructor
      · intro h1
        cases h1
      · rintro ⟨h1, h2⟩
        rcases List.mem_cons.1 h1 with e | h3
        · rw [e] at h2
          exact absurd h2 ha
        · exact absurd (strLt_trans (h.head_lt x h3) h2) ha

/-- The keys `purge` deletes from a sorted store are the keys of the store in
`[dataBegin, dataEnd)`. -/
theorem purgeBatch_eq (bin : CacheBin) (db : Store) :
    purgeBatch bin db =
      (((db.seek (dataBegin bin)).takeWhile fun e => strLt e.1 (dataEnd bin)).map
        fun e => e.1).map Op.delete := by
  simp [purgeBatch, List.map_map, Function.comp_def]

theorem mem_purged_keys {bin : CacheBin} {db : Store} {k : Str} (h : Store.Sorted db) :
    k ∈ ((db.seek (dataBegin bin)).takeWhile fun e => strLt e.1 (dataEnd bin)).map
        (fun e => e.1) ↔
      (∃ v, (k, v) ∈ db) ∧ InRange k (dataBegin bin) (dataEnd bin) := by
  rw [List.mem_map]
  constructor
  · rintro ⟨x, hx, rfl⟩
    rw [Store.mem_takeWhile (Store.sorted_seek _ h), Store.mem_seek h] at hx
    exact ⟨⟨x.2, hx.1.1⟩, hx.1.2, hx.2⟩
  · rintro ⟨⟨v, hv⟩, h1, h2⟩
    refine ⟨(k, v), ?_, rfl⟩
    rw [Store.mem_takeWhile (Store.sorted_seek _ h), Store.mem_seek h]
    exact ⟨⟨hv, h1⟩, h2⟩

/-- What `Get` finds after the batch of `purge` on a sorted store. -/
theorem get_after_purge (bin : CacheBin) (db : Store) (k : Str) (h : Store.Sorted db) :
    (db.applyBatch (purgeBatch bin db)).get k =
      if InRange k (dataBegin bin) (dataEnd bin) then none else db.get k := by
  rw [purgeBatch_eq, Store.get_applyBatch_deletes]
  by_cases hr : InRange k (dataBegin bin) (dataEnd bin)
  · rw [if_pos hr]
    cases hg : db.get k with
    | none => simp
    | some v =>
      rw [if_pos ((mem_purged_keys h).2 ⟨⟨v, Store.mem_of_get hg⟩, hr⟩)]
  · rw [if_neg hr, if_neg (fun hm => hr ((mem_purged_keys h).1 hm).2)]

section Purging

variable {Obj Config DateTime Policy : Type}

/-- C12, as the code has it: after `purge` returns true on a sorted store, the
data record of every key of the bin that does not begin with the byte 0xFF is
absent, and `read` of such a key, for every `minTime`, is expired when the
metadata record left behind is expired (when `getRecordStatus` was expired
before the purge) and not found otherwise; every key outside
`[dataBegin, dataEnd)`, every metadata key and every time-index key reads as
before; the tracker and the record of calls are as before. -/
theorem purge_clears_data (E : Env Obj Config DateTime Policy) (bin : CacheBin)
    (s : State Policy) (commitOk : Bool) (key : Str) (minTime : Int)
    (reader : Str → Option Obj) (db : Store) (hdb : s.db = some db) (hs : Store.Sorted db)
    (hp : (purge bin s commitOk).1 = true) :
    ∃ db', (purge bin s commitOk).2 = { s with db := some db' } ∧
      (key.head? ≠ some 255 →
        db'.get (dataKey bin key) = none ∧
        (read E bin (purge bin s commitOk).2 key minTime reader).1 =
          if getRecordStatus E bin s key minTime = .expired then .expired else .notFound) ∧
      (∀ k, ¬ InRange k (dataBegin bin) (dataEnd bin) → db'.get k = db.get k) ∧
      (∀ b k, db'.get (metaKey b k) = db.get (metaKey b k)) ∧
      (∀ b t k, db'.get (timeKey E b t k) = db.get (timeKey E b t k)) := by
  unfold purge at hp ⊢
  simp only [hdb] at hp ⊢
  cases commitOk with
  | false => simp at hp
  | true =>
    simp only [if_true]
    have hmeta : ∀ b k, ¬ InRange (metaKey b k) (dataBegin bin) (dataEnd bin) := by
      intro b k hr
      obtain ⟨key2, -, e⟩ := (inRange_data_iff bin _).1 hr
      exact metaKey_ne_dataKey b bin k key2 e
    have htime : ∀ b t k, ¬ InRange (timeKey E b t k) (dataBegin bin) (dataEnd bin) := by
      intro b t k hr
      obtain ⟨key2, -, e⟩ := (inRange_data_iff bin _).1 hr
      exact timeKey_ne_dataKey E b bin t k key2 e
    refine ⟨_, rfl, ?_, ?_, ?_, ?_⟩
    · intro hkey
      have hr : InRange (dataKey bin key) (dataBegin bin) (dataEnd bin) :=
        (inRange_data_iff bin _).2 ⟨key, hkey, rfl⟩
      have hd : (db.applyBatch (purgeBatch bin db)).get (dataKey bin key) = none := by
        rw [get_after_purge bin db _ hs, if_pos hr]
      refine ⟨hd, ?_⟩
      unfold read getRecordStatus
      simp only [hdb]
      rw [get_after_purge bin db _ hs, if_neg (hmeta bin key)]
      cases hm : db.get (metaKey bin key) with
      | none =>
        simp only [readData_fst, hd]
        simp
      | some mv =>
        simp only []
        by_cases hexp : 0 < max minTime bin.minValidTime ∧
            E.asTimeStamp (recordTime E (decodeMeta E mv E.cfgEmpty)) <
              max minTime bin.minValidTime
        · simp [hexp]
        · simp only [hexp, if_false, readData_fst, hd]
          rfl
    · intro k hk
      rw [get_after_purge bin db _ hs, if_neg hk]
    · intro b k
      rw [get_after_purge bin db _ hs, if_neg (hmeta b k)]
    · intro b t k
      rw [get_after_purge bin db _ hs, if_neg (htime b t k)]

/-- A use of `purge_clears_data`: the store with key `"k"` of bin `"a"`. -/
theorem purge_clears_data_witness :
    ∃ db', (purge Sample.binA Sample.oneRecord true).2 =
        { Sample.oneRecord with db := some db' } ∧
      ((([107] : Str).head? ≠ some 255) →
        db'.get (dataKey Sample.binA [107]) = none ∧
        (read Sample.env Sample.binA (purge Sample.binA Sample.oneRecord true).2 [107] 0
            Sample.decodeAny).1 =
          if getRecordStatus Sample.env Sample.binA Sample.oneRecord [107] 0 = .expired then
            .expired
          else .notFound) ∧
      (∀ k, ¬ InRange k (dataBegin Sample.binA) (dataEnd Sample.binA) →
        db'.get k = (Sample.oneRecord.db.getD []).get k) ∧
      (∀ b k, db'.get (metaKey b k) = (Sample.oneRecord.db.getD []).get (metaKey b k)) ∧
      (∀ b t k, db'.get (timeKey Sample.env b t k) =
        (Sample.oneRecord.db.getD []).get (timeKey Sample.env b t k)) :=
  purge_clears_data Sample.env Sample.binA Sample.oneRecord true [107] 0 Sample.decodeAny
    (Sample.oneRecord.db.getD []) (by decide) (by decide) (by decide)

/-- C12, as stated, fails twice. After key `"k"`, written at time 1, is purged,
`read` with `minTime = 5` is expired, not not-found: the metadata record is
still there and is checked first. And a record whose key is `"\xff"` is not
purged at all: its data key is the end of the range, and `read` returns it. -/
theorem purge_read_not_always_notFound :
    ((purge Sample.binA Sample.oneRecord true).1 = true ∧
      (read Sample.env Sample.binA (purge Sample.binA Sample.oneRecord true).2 [107] 5
        Sample.decodeAny).1 = .expired) ∧
    ((purge Sample.binA Sample.oneRecord0xff true).1 = true ∧
      (read Sample.env Sample.binA (purge Sample.binA Sample.oneRecord0xff true).2 [255] 0
        Sample.decodeAny).1 = .ok (.text [1]) [(TIME_FIELD, Sample.asISO8601 1)]) := by
  decide

end Purging

section StorageSize

variable {Obj Config DateTime Policy : Type}

/-- C14: the time-index key that `write` and `touch` store for a bin lies
outside the range `[timeBegin, timeEnd)` that `getStorageSize` passes to the
size estimator, whenever the rendered time stamp (without `!`) is not the bin
ID itself: the range starts with the bin ID where the key has the time stamp. -/
theorem timeKey_outside_time_range (E : Env Obj Config DateTime Policy) (bin : CacheBin)
    (t : DateTime) (key : Str) (h1 : noSep bin.id) (h2 : noSep (E.asISO8601 t))
    (hne : E.asISO8601 t ≠ bin.id) :
    ¬ InRange (timeKey E bin t key) (timeBegin bin) (timeEnd bin) := by
  have e : timeEnd bin = timeBegin bin ++ [255] := by simp [timeEnd, timeBegin]
  rw [e, inRange_prefix_iff]
  rintro ⟨rest, h, -⟩
  rw [timeKey_cons] at h
  have hb : timeBegin bin ++ rest = 116 :: 33 :: (bin.id ++ 33 :: rest) := by
    simp [timeBegin, SEP]
  rw [hb] at h
  exact hne (split_at_sep h2 h1 (List.cons.inj (List.cons.inj h).2).2).1

/-- C14 at a store with one record of bin `"a"`, written at time 1: the
time-index key is below `timeBegin`, and with an estimator that adds up the
bytes of the entries in a range, `getStorageSize` is 30, the bytes of the data
and the metadata entry, of the 41 bytes the three entries of the bin take; on
a store that holds only the time-index entry it is 0. -/
theorem getStorageSize_misses_time_index :
    ¬ InRange (timeKey Sample.env Sample.binA 1 [107]) (timeBegin Sample.binA)
      (timeEnd Sample.binA) ∧
    strLt (timeKey Sample.env Sample.binA 1 [107]) (timeBegin Sample.binA) = true ∧
    Sample.oneRecord.db =
      some [(dataKey Sample.binA [107], [3, 1]),
            (metaKey Sample.binA [107], Sample.toJSON [(TIME_FIELD, Sample.asISO8601 1)]),
            (timeKey Sample.env Sample.binA 1 [107], [107])] ∧
    getStorageSize Sample.env Sample.binA Sample.oneRecord = 30 ∧
    Sample.storeBytes Sample.oneRecord.db = 41 ∧
    getStorageSize Sample.env Sample.binA
      { db := some [(timeKey Sample.env Sample.binA 1 [107], [107])],
        tracker := Sample.noLimit, trace := [] } = 0 :=
  ⟨timeKey_outside_time_range Sample.env Sample.binA 1 [107] (by decide) (by decide)
    (by decide), by decide, by decide, by decide, by decide, by decide⟩

end StorageSize

/-! ## Batches keep the store sorted -/

theorem Store.sorted_cons_iff {a : Str × Str} {l : Store} :
    Store.Sorted (a :: l) ↔ (∀ x ∈ l, strLt a.1 x.1 = true) ∧ Store.Sorted l := by
  constructor
  · exact fun h => ⟨h.head_lt, h.tail⟩
  · rintro ⟨h1, h2⟩
    cases l with
    | nil => trivial
    | cons b rest => exact ⟨h1 b (List.mem_cons_self b rest), h2⟩

theorem Store.mem_put {s : Store} {k v : Str} {x : Str × Str} (h : x ∈ s.put k v) :
    x = (k, v) ∨ x ∈ s := by
  induction s with
  | nil =>
    simp only [Store.put, List.mem_singleton] at h
    exact Or.inl h
  | cons e rest ih =>
    obtain ⟨a, b⟩ := e
    simp only [Store.put] at h
    by_cases h1 : k = a
    · rw [if_pos h1] at h
      rcases List.mem_cons.1 h with e | h2
      · exact Or.inl e
      · exact Or.inr (List.mem_cons_of_mem _ h2)
    · rw [if_neg h1] at h
      by_cases h2 : strLt k a = true
      · rw [if_pos h2] at h
        rcases List.mem_cons.1 h with e | h3
        · exact Or.inl e
        · exact Or.inr h3
      · rw [if_neg h2] at h
        rcases List.mem_cons.1 h with e | h3
        · exact Or.inr (e ▸ List.mem_cons_self _ _)
        · rcases ih h3 with e | h4
          · exact Or.inl e
          · exact Or.inr (List.mem_cons_of_mem _ h4)

theorem Store.sorted_put {s : Store} (k v : Str) (h : Store.Sorted s) :
    Store.Sorted (s.put k v) := by
  induction s with
  | nil => trivial
  | cons e rest ih =>
    obtain ⟨a, b⟩ := e
    simp only [Store.put]
    by_cases h1 : k = a
    · rw [if_pos h1, Store.sorted_cons_iff]
      subst h1
      exact ⟨h.head_lt, h.tail⟩
    · rw [if_neg h1]
      by_cases h2 : strLt k a = true
      · rw [if_pos h2]
        exact ⟨h2, h⟩
      · rw [if_neg h2, Store.sorted_cons_iff]
        refine ⟨?_, ih h.tail⟩
        intro x hx
        rcases Store.mem_put hx with e | h3
        · rw [e]
          cases h4 : strLt a k with
          | true => rfl
          | false => exact absurd (strLt_total (by simpa using h2) h4) h1
        · exact h.head_lt x h3

theorem Store.sorted_delete {s : Store} (k : Str) (h : Store.Sorted s) :
    Store.Sorted (s.delete k) := by
  induction s with
  | nil => trivial
  | cons e rest ih =>
    unfold Store.delete at ih ⊢
    rw [List.filter_cons]
    split_ifs
    · rw [Store.sorted_cons_iff]
      exact ⟨fun x hx => h.head_lt x (List.mem_of_mem_filter hx), ih h.tail⟩
    · exact ih h.tail

/-- A committed batch leaves a sorted store sorted. -/
theorem Store.sorted_applyBatch {s : Store} (batch : List Op) (h : Store.Sorted s) :
    Store.Sorted (s.applyBatch batch) := by
  induction batch generalizing s with
  | nil => exact h
  | cons op rest ih =>
    have e : Store.applyBatch s (op :: rest) = Store.applyBatch (s.applyOp op) rest := rfl
    rw [e]
    apply ih
    cases op with
    | put k v => exact Store.sorted_put k v h
    | delete k => exact Store.sorted_delete k h

end LevelDBCache
